import Mathlib

/-!
# wav2flacyeah: the batch conversion worker and its controller

A shallow embedding of `ConversionJob.h`, `ConversionThread.cpp` and the queue
operations of `ConverterComponent.cpp`.

* Machine integers (`int`, `int64_t`) are `Int`; the one narrowing cast of the source
  (`int (numFrames)`) is `toInt32`.
* `float`/`double` quantities (sample rates, progress fractions) are exact rationals.
* The JUCE capabilities the worker calls (format reader, output stream, FLAC writer,
  `threadShouldExit`) are fields of `World`; every call the worker makes on the reader,
  the resampler and the writer is appended to an effect log.
* `ConversionThread::run` together with the `convertFile` it calls is a deterministic
  step function `step` on `WorkerState`, one step per loop test or job-list mutation.
-/

namespace Wav2Flac

/-! ## ConversionJob.h -/

/-- The `enum class JobStatus`. -/
inductive JobStatus
  | Queued
  | Converting
  | Done
  | Error
  deriving DecidableEq

/-- The `struct ConversionJob`; `inputFile` is the full path of the `juce::File`. -/
structure ConversionJob where
  inputFile : String
  errorMessage : String
  status : JobStatus
  deriving DecidableEq

/-- The `struct ConversionSettings`; `0` means keep original for rate and depth. -/
structure ConversionSettings where
  targetSampleRate : Int
  targetBitDepth : Int
  flacQuality : Int
  deriving DecidableEq

/-! ## Numeric helpers of `convertFile` -/

/-- The C++ conversion of a real number to an integer type: truncation toward zero. -/
def truncToInt (q : ℚ) : Int :=
  if 0 ≤ q then ⌊q⌋ else ⌈q⌉

/-- The narrowing cast `int (x)` of a 64-bit value (two's complement wrap). -/
def toInt32 (x : Int) : Int :=
  (x + 2147483648) % 4294967296 - 2147483648

/-- Line 84: `outRate = (s.targetSampleRate > 0) ? double (s.targetSampleRate) : srcRate`. -/
def outRate (s : ConversionSettings) (srcRate : ℚ) : ℚ :=
  if s.targetSampleRate > 0 then (s.targetSampleRate : ℚ) else srcRate

/-- Lines 86-87: `outBits = (s.targetBitDepth > 0) ? s.targetBitDepth : jmin (srcBits, 24)`
followed by `outBits = jmin (outBits, 24)`. -/
def outBits (s : ConversionSettings) (srcBits : Int) : Int :=
  min (if s.targetBitDepth > 0 then s.targetBitDepth else min srcBits 24) 24

/-- Line 116: `needsResample = (outRate != srcRate)`. -/
def needsResample (s : ConversionSettings) (srcRate : ℚ) : Bool :=
  decide (outRate s srcRate ≠ srcRate)

/-- Line 117: `blockSize = 8192`. -/
def blockSize : Int := 8192

/-- Line 162: `outFrames = int64_t (double (numFrames) * outRate / srcRate + 0.5)`. -/
def outFrames (numFrames : Int) (srcRate dstRate : ℚ) : Int :=
  truncToInt ((numFrames : ℚ) * dstRate / srcRate + 1 / 2)

/-- Lines 136-139 and 180-181: the throttle test
`int (fp * 200) != int ((fp - float (n) / float (total)) * 200)`. -/
def throttlePass (fp : ℚ) (n total : Int) : Bool :=
  decide (truncToInt (fp * 200) ≠ truncToInt ((fp - (n : ℚ) / (total : ℚ)) * 200))

/-! ## The worker's environment -/

/-- What `createReaderFor` exposes of an opened source: `sampleRate`,
`bitsPerSample`, `numChannels`, `lengthInSamples`. -/
structure AudioFormatReader where
  sampleRate : ℚ
  bitsPerSample : Int
  numChannels : Int
  lengthInSamples : Int
  deriving DecidableEq

/-- The external capabilities `ConversionThread` calls, each keyed by the path it is
called on. `threadShouldExit t` is the answer of the `t`-th poll of the flag. -/
structure World where
  /-- The call `formatManager.createReaderFor (job.inputFile)`; `none` is `nullptr`. -/
  createReaderFor : String → Option AudioFormatReader
  /-- The call `job.inputFile.getFileName()`. -/
  getFileName : String → String
  /-- The call `job.inputFile.withFileExtension ("flac")`, as a full path name. -/
  withFlacExtension : String → String
  /-- The call `outStream->failedToOpen()` for the stream on the given output path. -/
  failedToOpen : String → Bool
  /-- Whether `flac.createWriterFor (stream, rate, numCh, bits, {}, quality)` returns a
  writer (`true`) or `nullptr` (`false`). -/
  createWriterFor : String → ℚ → Int → Int → Int → Bool
  /-- The result of `writer->writeFromAudioSampleBuffer` for the block that starts at the
  given output frame offset, for the job with the given input path. -/
  writeOk : String → Int → Bool
  /-- The answer of the `t`-th call of `threadShouldExit()`. -/
  threadShouldExit : Nat → Bool

/-- The arguments `ProgressCallback` is posted with through `callAsync`:
`(jobIndex, fileProgress, overallProgress, status, errorMessage)`. -/
structure ProgressEvent where
  jobIndex : Int
  fileProgress : ℚ
  overallProgress : ℚ
  status : JobStatus
  errorMessage : String
  deriving DecidableEq

/-- The calls `convertFile` makes on the reader, the writer and the resampler. -/
inductive Effect
  | createWriter (outFile : String) (rate : ℚ) (numCh bits quality : Int)
  | read (start n : Int)
  | write (n : Int)
  | setResamplingRatio (r : ℚ)
  | prepareToPlay (block : Int) (rate : ℚ)
  | getNextAudioBlock (n : Int)
  | releaseResources
  deriving DecidableEq

/-- Control points of `run` (with `convertFile` inlined). -/
inductive Pc
  /-- Line 40: about to test `i < total` and then poll the flag (line 42). -/
  | forHead (i : Nat)
  /-- Line 70: `convertFile` entered for job `i` (lines 45-51 done). -/
  | fileEntry (i : Nat)
  /-- Line 124: loop test of the direct-copy loop. -/
  | copyHead (i : Nat) (numFrames pos : Int)
  /-- Line 166: loop test of the resampling loop. -/
  | resampleHead (i : Nat) (outFrames written : Int)
  /-- Line 193: `return !threadShouldExit()`. -/
  | fileReturn (i : Nat)
  /-- Line 54: `convertFile` has returned `ok`. -/
  | fileExit (i : Nat) (ok : Bool)
  /-- The function `run` has returned. -/
  | halted
  deriving DecidableEq

/-- The worker's state: its private `localJobs`, the events posted so far (oldest first),
the effect log, the number of flag polls made, and the control point. -/
structure WorkerState where
  jobs : List ConversionJob
  events : List ProgressEvent
  effects : List Effect
  polls : Nat
  pc : Pc
  deriving DecidableEq

/-- The assignment `jobs.getReference (i).status = st`. -/
def setStatus (jobs : List ConversionJob) (i : Nat) (st : JobStatus) : List ConversionJob :=
  match jobs[i]? with
  | some j => jobs.set i { j with status := st }
  | none => jobs

/-- The assignment `job.errorMessage = msg` on job `i`. -/
def setErrorMessage (jobs : List ConversionJob) (i : Nat) (msg : String) :
    List ConversionJob :=
  match jobs[i]? with
  | some j => jobs.set i { j with errorMessage := msg }
  | none => jobs

/-- The input path of job `i`. -/
def inputFileAt (jobs : List ConversionJob) (i : Nat) : String :=
  match jobs[i]? with
  | some j => j.inputFile
  | none => ""

/-- The error message of job `i`. -/
def errorMessageAt (jobs : List ConversionJob) (i : Nat) : String :=
  match jobs[i]? with
  | some j => j.errorMessage
  | none => ""

/-- The throttled intra-file event of lines 139-148 and 181-187: posted with job index
`-1` and overall progress `-1` when the throttle test passes. -/
def intraFileEvents (done n total : Int) : List ProgressEvent :=
  if throttlePass ((done : ℚ) / (total : ℚ)) n total then
    [⟨-1, (done : ℚ) / (total : ℚ), -1, JobStatus.Converting, ""⟩]
  else []

/-- Lines 54-63: `job.status = ok ? Done : Error`, then the job-complete event. -/
def finishJob (st : WorkerState) (i : Nat) (ok : Bool) : WorkerState :=
  let status := if ok then JobStatus.Done else JobStatus.Error
  { st with
    jobs := setStatus st.jobs i status
    events := st.events ++
      [⟨(i : Int), 1, ((i : ℚ) + 1) / (st.jobs.length : ℚ), status, errorMessageAt st.jobs i⟩]
    pc := Pc.forHead (i + 1) }

/-- Lines 70-119: the part of `convertFile` before the loops. -/
def openFile (w : World) (s : ConversionSettings) (st : WorkerState) (i : Nat) :
    WorkerState :=
  let inputFile := inputFileAt st.jobs i
  match w.createReaderFor inputFile with
  | none =>
    { st with
      jobs := setErrorMessage st.jobs i ("Cannot read: " ++ w.getFileName inputFile)
      pc := Pc.fileExit i false }
  | some reader =>
    let outFile := w.withFlacExtension inputFile
    if w.failedToOpen outFile then
      { st with
        jobs := setErrorMessage st.jobs i ("Cannot write: " ++ outFile)
        pc := Pc.fileExit i false }
    else
      let rate := outRate s reader.sampleRate
      let bits := outBits s reader.bitsPerSample
      let st1 := { st with
        effects := st.effects ++
          [Effect.createWriter outFile rate reader.numChannels bits s.flacQuality] }
      if !w.createWriterFor outFile rate reader.numChannels bits s.flacQuality then
        { st1 with
          jobs := setErrorMessage st.jobs i
            ("FLAC writer failed (bit depth " ++ toString bits ++ " unsupported?)")
          pc := Pc.fileExit i false }
      else if !needsResample s reader.sampleRate then
        { st1 with pc := Pc.copyHead i reader.lengthInSamples 0 }
      else
        { st1 with
          effects := st1.effects ++
            [Effect.read 0 (toInt32 reader.lengthInSamples),
             Effect.setResamplingRatio (reader.sampleRate / rate),
             Effect.prepareToPlay blockSize rate]
          pc := Pc.resampleHead i
            (outFrames reader.lengthInSamples reader.sampleRate rate) 0 }

/-- Lines 124-149: one test of the direct-copy loop and, when it passes, one iteration.
The flag is polled only when `pos < numFrames` (short-circuit `&&`). -/
def copyStep (w : World) (st : WorkerState) (i : Nat) (numFrames pos : Int) :
    WorkerState :=
  if pos < numFrames then
    if w.threadShouldExit st.polls then
      { st with polls := st.polls + 1, pc := Pc.fileReturn i }
    else
      let n := min blockSize (numFrames - pos)
      let st1 := { st with
        polls := st.polls + 1
        effects := st.effects ++ [Effect.read pos n, Effect.write n] }
      if !w.writeOk (inputFileAt st.jobs i) pos then
        { st1 with
          jobs := setErrorMessage st.jobs i "Write error"
          pc := Pc.fileExit i false }
      else
        { st1 with
          events := st.events ++ intraFileEvents (pos + n) n numFrames
          pc := Pc.copyHead i numFrames (pos + n) }
  else
    { st with pc := Pc.fileReturn i }

/-- Lines 166-190: one test of the resampling loop and, when it passes, one iteration;
when the loop is left, `resampler.releaseResources()` of line 190. -/
def resampleStep (w : World) (st : WorkerState) (i : Nat) (total written : Int) :
    WorkerState :=
  if written < total then
    if w.threadShouldExit st.polls then
      { st with
        polls := st.polls + 1
        effects := st.effects ++ [Effect.releaseResources]
        pc := Pc.fileReturn i }
    else
      let n := min blockSize (total - written)
      let st1 := { st with
        polls := st.polls + 1
        effects := st.effects ++ [Effect.getNextAudioBlock n, Effect.write n] }
      if !w.writeOk (inputFileAt st.jobs i) written then
        { st1 with
          jobs := setErrorMessage st.jobs i "Write error during resample"
          effects := st1.effects ++ [Effect.releaseResources]
          pc := Pc.fileExit i false }
      else
        { st1 with
          events := st.events ++ intraFileEvents (written + n) n total
          pc := Pc.resampleHead i total (written + n) }
  else
    { st with
      effects := st.effects ++ [Effect.releaseResources]
      pc := Pc.fileReturn i }

/-- One step of `ConversionThread::run` (lines 38-65) with `convertFile` inlined. -/
def step (w : World) (s : ConversionSettings) (st : WorkerState) : WorkerState :=
  match st.pc with
  | Pc.forHead i =>
    if i < st.jobs.length then
      if w.threadShouldExit st.polls then
        { st with polls := st.polls + 1, pc := Pc.halted }
      else
        { st with
          polls := st.polls + 1
          jobs := setStatus st.jobs i JobStatus.Converting
          events := st.events ++
            [⟨(i : Int), 0, (i : ℚ) / (st.jobs.length : ℚ), JobStatus.Converting, ""⟩]
          pc := Pc.fileEntry i }
    else
      { st with pc := Pc.halted }
  | Pc.fileEntry i => openFile w s st i
  | Pc.copyHead i numFrames pos => copyStep w st i numFrames pos
  | Pc.resampleHead i total written => resampleStep w st i total written
  | Pc.fileReturn i =>
    { st with
      polls := st.polls + 1
      pc := Pc.fileExit i (!w.threadShouldExit st.polls) }
  | Pc.fileExit i ok => finishJob st i ok
  | Pc.halted => st

/-- The state in which `run` starts on the job list handed over by `setJobs`. -/
def initWorker (jobs : List ConversionJob) : WorkerState :=
  { jobs := jobs, events := [], effects := [], polls := 0, pc := Pc.forHead 0 }

/-- The worker after `n` steps. -/
def runFor (w : World) (s : ConversionSettings) (n : Nat) (st : WorkerState) :
    WorkerState :=
  (step w s)^[n] st

/-! ## The controller (`ConverterComponent`) -/

/-- The controller state the queue operations read and write: the job queue, the two
progress values, `currentJobIdx`, the combo-box and slider selections `buildSettings`
reads, whether `convThread.isThreadRunning()`, and what `setJobs` last handed over. -/
structure ConverterComponent where
  jobs : List ConversionJob
  perFileProg : ℚ
  overallProg : ℚ
  currentJobIdx : Int
  srSelectedId : Int
  bdSelectedId : Int
  qualValue : Int
  threadRunning : Bool
  threadJobs : List ConversionJob
  threadSettings : ConversionSettings
  deriving DecidableEq

/-- Lines 337-347: the body of the `for (auto& p : paths)` loop of `addFiles`. -/
def addFile (hasWavExtension existsAsFile : String → Bool) (jobs : List ConversionJob)
    (p : String) : List ConversionJob :=
  if !hasWavExtension p || !existsAsFile p then jobs
  else if jobs.any (fun j => j.inputFile == p) then jobs
  else jobs ++ [⟨p, "", JobStatus.Queued⟩]

/-- The method `ConverterComponent::addFiles`. -/
def addFiles (hasWavExtension existsAsFile : String → Bool) (c : ConverterComponent)
    (paths : List String) : ConverterComponent :=
  { c with jobs := paths.foldl (addFile hasWavExtension existsAsFile) c.jobs }

/-- The method `ConverterComponent::filesDropped`. -/
def filesDropped (hasWavExtension existsAsFile : String → Bool) (c : ConverterComponent)
    (files : List String) : ConverterComponent :=
  addFiles hasWavExtension existsAsFile c files

/-- The handler `clearBtn.onClick`. -/
def clear (c : ConverterComponent) : ConverterComponent :=
  if c.threadRunning then c
  else { c with jobs := [], perFileProg := 0, overallProg := 0 }

/-- The table `srVals`. -/
def srVals : List Int := [0, 44100, 48000, 88200, 96000, 192000]

/-- The table `bdVals`. -/
def bdVals : List Int := [0, 16, 24]

/-- The method `ConverterComponent::buildSettings`. -/
def buildSettings (c : ConverterComponent) : ConversionSettings :=
  { targetSampleRate :=
      if 1 ≤ c.srSelectedId ∧ c.srSelectedId ≤ 6 then
        srVals.getD (c.srSelectedId - 1).toNat 0 else 0
    targetBitDepth :=
      if 1 ≤ c.bdSelectedId ∧ c.bdSelectedId ≤ 3 then
        bdVals.getD (c.bdSelectedId - 1).toNat 0 else 0
    flacQuality := c.qualValue }

/-- The method `ConverterComponent::startConversion`. -/
def startConversion (c : ConverterComponent) : ConverterComponent :=
  if c.jobs.isEmpty || c.threadRunning then c
  else
    let jobs := c.jobs.map (fun j => { j with status := JobStatus.Queued })
    { c with
      jobs := jobs
      perFileProg := 0
      overallProg := 0
      currentJobIdx := -1
      threadJobs := jobs
      threadSettings := buildSettings c
      threadRunning := true }

/-- The method `ConverterComponent::stopConversion`: the flag is raised and the thread
is stopped (`stopThread (4000)`); the queue is not touched. -/
def stopConversion (c : ConverterComponent) : ConverterComponent :=
  { c with threadRunning := false }

/-- The method `ConverterComponent::onProgress`, on the callback's arguments. -/
def onProgress (c : ConverterComponent) (e : ProgressEvent) : ConverterComponent :=
  let c1 :=
    if 0 ≤ e.jobIndex ∧ e.jobIndex < (c.jobs.length : Int) then
      let js := setStatus c.jobs e.jobIndex.toNat e.status
      { c with
        jobs := if e.status = JobStatus.Error then
            setErrorMessage js e.jobIndex.toNat e.errorMessage else js
        currentJobIdx := e.jobIndex }
    else c
  { c1 with
    perFileProg := if 0 ≤ e.fileProgress then e.fileProgress else c1.perFileProg
    overallProg := if 0 ≤ e.overallProgress then e.overallProgress else c1.overallProg }

/-- The controller after the posted events are delivered in order. -/
def deliver (c : ConverterComponent) (events : List ProgressEvent) : ConverterComponent :=
  events.foldl onProgress c


/-! ## Concrete worlds and states used by the worked examples -/

def demoReader (numFrames : Int) : AudioFormatReader :=
  { sampleRate := 44100, bitsPerSample := 32, numChannels := 2, lengthInSamples := numFrames }

def demoWorld (reader : String → Option AudioFormatReader) (exitFlag : Nat → Bool) : World :=
  { createReaderFor := reader
    getFileName := fun p => p
    withFlacExtension := fun p => p ++ ".flac"
    failedToOpen := fun _ => false
    createWriterFor := fun _ _ _ _ _ => true
    writeOk := fun _ _ => true
    threadShouldExit := exitFlag }

def demoEntry : WorkerState :=
  { jobs := [⟨"a.wav", "", JobStatus.Converting⟩], events := [], effects := [], polls := 1,
    pc := Pc.fileEntry 0 }


/-! ## Vocabulary for statements about runs -/

/-- The status of job `j`, when there is one. -/
def statusAt (jobs : List ConversionJob) (j : Nat) : Option JobStatus :=
  (jobs[j]?).map (fun job => job.status)

/-- The order `Queued < Converting < {Done, Error}` on statuses. -/
def statusRank : JobStatus → Nat
  | JobStatus.Queued => 0
  | JobStatus.Converting => 1
  | JobStatus.Done => 2
  | JobStatus.Error => 2

/-- A status is terminal when it is `Done` or `Error`. -/
def isTerminal (s : JobStatus) : Bool :=
  s = JobStatus.Done || s = JobStatus.Error

/-- What one call of `convertFile` does to the worker state when the flag is never
raised: its return value, the message it stores when it fails, the intra-file events it
posts, the effects it logs, the polls it makes, and the number of steps it takes. -/
structure FileOutcome where
  ok : Bool
  message : String
  events : List ProgressEvent
  effects : List Effect
  polls : Nat
  steps : Nat

/-- The state at line 54 after a `convertFile` with outcome `o` on job `i`. -/
def applyOutcome (st : WorkerState) (i : Nat) (o : FileOutcome) : WorkerState :=
  { jobs := if o.ok then st.jobs else setErrorMessage st.jobs i o.message
    events := st.events ++ o.events
    effects := st.effects ++ o.effects
    polls := st.polls + o.polls
    pc := Pc.fileExit i o.ok }

/-- The intra-file events of one file: posted with job index `-1`, overall progress
`-1`, a file progress between `low` and 1, in non-decreasing order of file progress. -/
def IntraFile (low : ℚ) (evs : List ProgressEvent) : Prop :=
  (∀ e ∈ evs, e.jobIndex = -1 ∧ e.overallProgress = -1 ∧
      e.status = JobStatus.Converting ∧ e.errorMessage = "" ∧
      low ≤ e.fileProgress ∧ e.fileProgress ≤ 1) ∧
    (evs.map (fun e => e.fileProgress)).Pairwise (fun a b => a ≤ b)

/-- Every capability `convertFile` needs for `file` succeeds: the reader opens, the
output stream opens, the FLAC writer is created, and no block write fails. -/
def FileConverts (w : World) (s : ConversionSettings) (file : String) : Prop :=
  ∃ reader, w.createReaderFor file = some reader ∧
    w.failedToOpen (w.withFlacExtension file) = false ∧
    w.createWriterFor (w.withFlacExtension file) (outRate s reader.sampleRate)
      reader.numChannels (outBits s reader.bitsPerSample) s.flacQuality = true ∧
    ∀ p, w.writeOk file p = true

/-- A job after its `convertFile` returned with outcome `o` (lines 54 and 75-174). -/
def finished (job : ConversionJob) (o : FileOutcome) : ConversionJob :=
  { job with
    status := if o.ok then JobStatus.Done else JobStatus.Error
    errorMessage := if o.ok then job.errorMessage else o.message }

/-- The events of job `i` of `total`: the job-start event, the intra-file events of
its `convertFile`, and the job-complete event. -/
def jobEvents (total i : Nat) (job : ConversionJob) (o : FileOutcome) :
    List ProgressEvent :=
  [⟨(i : Int), 0, (i : ℚ) / (total : ℚ), JobStatus.Converting, ""⟩] ++ o.events ++
    [⟨(i : Int), 1, ((i : ℚ) + 1) / (total : ℚ), (finished job o).status,
      (finished job o).errorMessage⟩]

/-- The events of the jobs `jobs`, which sit at indices `i, i + 1, ...` of a batch of
`total`, when the file at path `p` has outcome `o p`. -/
def runEvents (o : String → FileOutcome) (total : Nat) :
    Nat → List ConversionJob → List ProgressEvent
  | _, [] => []
  | i, job :: rest =>
    jobEvents total i job (o job.inputFile) ++ runEvents o total (i + 1) rest

/-- A job-boundary event: posted by `run` with the index of its job. -/
def isBoundary (e : ProgressEvent) : Bool :=
  decide (0 ≤ e.jobIndex)

/-- A job-start event (lines 48-51): a job index and status `Converting`. -/
def isJobStart (e : ProgressEvent) : Bool :=
  decide (0 ≤ e.jobIndex) && decide (e.status = JobStatus.Converting)

/-- A world in which the file `bad` cannot be opened for reading and every other file
has 20000 frames at 44100 Hz and converts; the flag is never raised. -/
def oneBadWorld (bad : String) : World :=
  demoWorld (fun p => if p = bad then none else some (demoReader 20000)) (fun _ => false)

/-- A batch of three queued jobs. -/
def threeJobs : List ConversionJob :=
  [⟨"a.wav", "", JobStatus.Queued⟩, ⟨"b.wav", "", JobStatus.Queued⟩,
   ⟨"c.wav", "", JobStatus.Queued⟩]

/-- The job-boundary events of a batch in which every conversion succeeds: for the job
at index `i` of `total`, the job-start event `(i, 0, i / total, Converting)` followed by
the job-complete event `(i, 1, (i + 1) / total, Done)`. -/
def successBoundary (total : Nat) : Nat → List ConversionJob → List ProgressEvent
  | _, [] => []
  | i, job :: rest =>
    ⟨(i : Int), 0, (i : ℚ) / (total : ℚ), JobStatus.Converting, ""⟩ ::
      ⟨(i : Int), 1, ((i : ℚ) + 1) / (total : ℚ), JobStatus.Done, job.errorMessage⟩ ::
      successBoundary total (i + 1) rest

/-- A world in which every file has 20000 frames at 44100 Hz and converts, and the flag
is never raised. -/
def allGoodWorld : World :=
  demoWorld (fun _ => some (demoReader 20000)) (fun _ => false)

/-- A controller holding the queue `jobs`, idle, with the default selections. -/
def demoController (jobs : List ConversionJob) : ConverterComponent :=
  { jobs := jobs, perFileProg := 0, overallProg := 0, currentJobIdx := -1,
    srSelectedId := 1, bdSelectedId := 1, qualValue := 5, threadRunning := false,
    threadJobs := [], threadSettings := ⟨0, 0, 5⟩ }

/-- The job `convertFile` is working on at a control point, if any. -/
def currentJob : Pc → Option Nat
  | Pc.fileEntry i => some i
  | Pc.copyHead i _ _ => some i
  | Pc.resampleHead i _ _ => some i
  | Pc.fileReturn i => some i
  | Pc.fileExit i _ => some i
  | Pc.forHead _ => none
  | Pc.halted => none

/-- Every job before index `i` is `Done` or `Error`. -/
def TerminalBefore (jobs : List ConversionJob) (i : Nat) : Prop :=
  ∀ j, j < i → ∃ st, statusAt jobs j = some st ∧ isTerminal st = true

/-- Every job from index `i` on is `Queued`. -/
def QueuedFrom (jobs : List ConversionJob) (i : Nat) : Prop :=
  ∀ j, i ≤ j → j < jobs.length → statusAt jobs j = some JobStatus.Queued

/-- The job list between two jobs: jobs before `i` terminal, jobs from `i` on queued. -/
def AtHead (jobs : List ConversionJob) (i : Nat) : Prop :=
  i ≤ jobs.length ∧ TerminalBefore jobs i ∧ QueuedFrom jobs i

/-- The job list while job `i` is converted: jobs before `i` terminal, job `i`
`Converting`, later jobs queued. -/
def InFile (jobs : List ConversionJob) (i : Nat) : Prop :=
  i < jobs.length ∧ TerminalBefore jobs i ∧
    statusAt jobs i = some JobStatus.Converting ∧ QueuedFrom jobs (i + 1)

/-- The invariant of the worker's run on a batch that starts all `Queued`. -/
def WorkerInv (st : WorkerState) : Prop :=
  (∀ i, currentJob st.pc = some i → InFile st.jobs i) ∧
    (∀ i, st.pc = Pc.forHead i → AtHead st.jobs i) ∧
    (st.pc = Pc.halted → ∃ i, AtHead st.jobs i)

/-- A world in which every file has 16384 frames (two blocks) at 44100 Hz and converts,
and the flag is raised from the poll numbered `start` on. -/
def cancelWorld (start : Nat) : World :=
  demoWorld (fun _ => some (demoReader 16384)) (fun t => decide (start ≤ t))

/-- A batch of two queued jobs. -/
def twoJobs : List ConversionJob :=
  [⟨"a.wav", "", JobStatus.Queued⟩, ⟨"b.wav", "", JobStatus.Queued⟩]

/-- A sample predicate for the source extension test `hasFileExtension ("wav")`. -/
def demoHasWav (p : String) : Bool :=
  p != "notes.txt"

/-- Candidate paths with a duplicate and a path of the wrong extension. -/
def demoPaths : List String :=
  ["a.wav", "notes.txt", "a.wav", "b.wav"]

/-- No job of `jobs'` has a lower status than in `jobs`, and a job that is `Done` or
`Error` in `jobs` has the same status in `jobs'`. -/
def StatusAdvance (jobs jobs' : List ConversionJob) : Prop :=
  ∀ j a, statusAt jobs j = some a →
    ∃ b, statusAt jobs' j = some b ∧ statusRank a ≤ statusRank b ∧
      (isTerminal a = true → b = a)

/-- An idle controller whose single job finished in an earlier run. -/
def finishedController : ConverterComponent :=
  demoController [⟨"a.wav", "", JobStatus.Done⟩]

/-- Every job that is not in `Error` has an empty error message. -/
def MessageInv (jobs : List ConversionJob) : Prop :=
  ∀ job ∈ jobs, job.status ≠ JobStatus.Error → job.errorMessage = ""

/-- The form of `MessageInv` that holds of the worker's list at every control point: the
only job that may carry a message without being in `Error` is the job whose
`convertFile` has just returned false (control at line 54). -/
def WorkerMessageInv (st : WorkerState) : Prop :=
  ∀ j job, st.jobs[j]? = some job → job.status ≠ JobStatus.Error →
    job.errorMessage = "" ∨ st.pc = Pc.fileExit j false

/-- An idle controller whose single job failed in an earlier run. -/
def failedController : ConverterComponent :=
  demoController [⟨"a.wav", "Cannot read: a.wav", JobStatus.Error⟩]

/-! ## Closed forms for the block loops -/

/-- The number of blocks of at most 8192 frames that cover `total` frames:
`ceil (total / 8192)`. -/
def numBlocks (total : Int) : Nat :=
  ((total + 8191) / 8192).toNat

/-- The frame offset at which block `k` starts (and block `k - 1` ends):
`min (8192 k, total)`. -/
def blockStart (total : Int) (k : Nat) : Int :=
  min (blockSize * (k : Int)) total

/-- The length of block `k`: `min (8192, total - 8192 k)`. -/
def blockLen (total : Int) (k : Nat) : Int :=
  min blockSize (total - blockSize * (k : Int))

/-- The calls of iteration `k` of the direct-copy loop: read and write the frame range
`[8192 k, 8192 k + blockLen)`. -/
def copyEffects (total : Int) (k : Nat) : List Effect :=
  [Effect.read (blockSize * (k : Int)) (blockLen total k), Effect.write (blockLen total k)]

/-- The calls of iteration `k` of the resampling loop: pull and write `blockLen`
frames. -/
def resampleEffects (total : Int) (k : Nat) : List Effect :=
  [Effect.getNextAudioBlock (blockLen total k), Effect.write (blockLen total k)]

/-- The intra-file event (if any) posted by iteration `k` of either loop. -/
def blockEvents (total : Int) (k : Nat) : List ProgressEvent :=
  intraFileEvents (blockSize * (k : Int) + blockLen total k) (blockLen total k) total

theorem truncToInt_of_nonneg {q : ℚ} (h : 0 ≤ q) : truncToInt q = ⌊q⌋ := by
  simp [truncToInt, h]

theorem openFile_of_writer (w : World) (s : ConversionSettings) (st : WorkerState)
    (i : Nat) (reader : AudioFormatReader)
    (hr : w.createReaderFor (inputFileAt st.jobs i) = some reader)
    (ho : w.failedToOpen (w.withFlacExtension (inputFileAt st.jobs i)) = false)
    (hw : w.createWriterFor (w.withFlacExtension (inputFileAt st.jobs i))
      (outRate s reader.sampleRate) reader.numChannels (outBits s reader.bitsPerSample)
      s.flacQuality = true) :
    openFile w s st i =
      if needsResample s reader.sampleRate then
        { st with
          effects := (st.effects ++
            [Effect.createWriter (w.withFlacExtension (inputFileAt st.jobs i))
              (outRate s reader.sampleRate) reader.numChannels
              (outBits s reader.bitsPerSample) s.flacQuality]) ++
            [Effect.read 0 (toInt32 reader.lengthInSamples),
             Effect.setResamplingRatio (reader.sampleRate / outRate s reader.sampleRate),
             Effect.prepareToPlay blockSize (outRate s reader.sampleRate)]
          pc := Pc.resampleHead i
            (outFrames reader.lengthInSamples reader.sampleRate
              (outRate s reader.sampleRate)) 0 }
      else
        { st with
          effects := st.effects ++
            [Effect.createWriter (w.withFlacExtension (inputFileAt st.jobs i))
              (outRate s reader.sampleRate) reader.numChannels
              (outBits s reader.bitsPerSample) s.flacQuality]
          pc := Pc.copyHead i reader.lengthInSamples 0 } := by
  simp only [openFile, hr, ho, hw]
  cases needsResample s reader.sampleRate <;> simp

theorem openFile_effects_of_opened (w : World) (s : ConversionSettings) (st : WorkerState)
    (i : Nat) (reader : AudioFormatReader)
    (hr : w.createReaderFor (inputFileAt st.jobs i) = some reader)
    (ho : w.failedToOpen (w.withFlacExtension (inputFileAt st.jobs i)) = false) :
    Effect.createWriter (w.withFlacExtension (inputFileAt st.jobs i))
      (outRate s reader.sampleRate) reader.numChannels (outBits s reader.bitsPerSample)
      s.flacQuality ∈ (openFile w s st i).effects := by
  simp only [openFile, hr, ho]
  cases w.createWriterFor (w.withFlacExtension (inputFileAt st.jobs i))
      (outRate s reader.sampleRate) reader.numChannels (outBits s reader.bitsPerSample)
      s.flacQuality <;> cases needsResample s reader.sampleRate <;> simp

/-- C1: the bit depth `convertFile` opens the writer with is `min (d, 24)`, where `d` is
`targetBitDepth` when that is positive and `min (srcBits, 24)` when it is the sentinel 0;
it never exceeds 24, is exactly 16 or 24 when 16 or 24 is requested, and is
`min (srcBits, 24)` when keep-original. -/
theorem C1_output_bit_depth (w : World) (s : ConversionSettings) (st : WorkerState)
    (i : Nat) (reader : AudioFormatReader) (hpc : st.pc = Pc.fileEntry i)
    (hr : w.createReaderFor (inputFileAt st.jobs i) = some reader)
    (ho : w.failedToOpen (w.withFlacExtension (inputFileAt st.jobs i)) = false) :
    Effect.createWriter (w.withFlacExtension (inputFileAt st.jobs i))
        (outRate s reader.sampleRate) reader.numChannels (outBits s reader.bitsPerSample)
        s.flacQuality ∈ (step w s st).effects ∧
      outBits s reader.bitsPerSample ≤ 24 ∧
      (0 < s.targetBitDepth →
        outBits s reader.bitsPerSample = min s.targetBitDepth 24) ∧
      (s.targetBitDepth = 0 →
        outBits s reader.bitsPerSample = min (min reader.bitsPerSample 24) 24 ∧
        outBits s reader.bitsPerSample = min reader.bitsPerSample 24) ∧
      (s.targetBitDepth = 16 → outBits s reader.bitsPerSample = 16) ∧
      (s.targetBitDepth = 24 → outBits s reader.bitsPerSample = 24) := by
  refine ⟨?_, ?_, ?_, ?_, ?_, ?_⟩
  · simp only [step, hpc]
    exact openFile_effects_of_opened w s st i reader hr ho
  · simp [outBits]
  · intro h
    simp [outBits, h]
  · intro h
    simp [outBits, h]
  · intro h
    simp [outBits, h]
  · intro h
    simp [outBits, h]

/-- C2: with `targetSampleRate` the sentinel 0 the effective output rate is the source
rate and the step after opening the writer enters the direct-copy loop; with a positive
`targetSampleRate` the effective rate is that value, and the resampling loop is entered
iff it differs from the source rate. -/
theorem C2_output_sample_rate (w : World) (s : ConversionSettings) (st : WorkerState)
    (i : Nat) (reader : AudioFormatReader) (hpc : st.pc = Pc.fileEntry i)
    (hr : w.createReaderFor (inputFileAt st.jobs i) = some reader)
    (ho : w.failedToOpen (w.withFlacExtension (inputFileAt st.jobs i)) = false)
    (hw : w.createWriterFor (w.withFlacExtension (inputFileAt st.jobs i))
      (outRate s reader.sampleRate) reader.numChannels (outBits s reader.bitsPerSample)
      s.flacQuality = true) :
    (s.targetSampleRate = 0 →
        outRate s reader.sampleRate = reader.sampleRate ∧
        (step w s st).pc = Pc.copyHead i reader.lengthInSamples 0) ∧
      (0 < s.targetSampleRate →
        outRate s reader.sampleRate = (s.targetSampleRate : ℚ) ∧
        ((step w s st).pc = Pc.resampleHead i
            (outFrames reader.lengthInSamples reader.sampleRate (s.targetSampleRate : ℚ)) 0
          ↔ (s.targetSampleRate : ℚ) ≠ reader.sampleRate) ∧
        ((step w s st).pc = Pc.copyHead i reader.lengthInSamples 0
          ↔ (s.targetSampleRate : ℚ) = reader.sampleRate)) := by
  have hstep : step w s st = openFile w s st i := by simp only [step, hpc]
  rw [hstep, openFile_of_writer w s st i reader hr ho hw]
  constructor
  · intro h0
    have h1 : outRate s reader.sampleRate = reader.sampleRate := by simp [outRate, h0]
    refine ⟨h1, ?_⟩
    simp [needsResample, h1]
  · intro hpos
    have h1 : outRate s reader.sampleRate = (s.targetSampleRate : ℚ) := by
      simp [outRate, hpos]
    refine ⟨h1, ?_, ?_⟩
    · by_cases heq : (s.targetSampleRate : ℚ) = reader.sampleRate
      · simp [needsResample, h1, heq]
      · simp [needsResample, h1, heq]
    · by_cases heq : (s.targetSampleRate : ℚ) = reader.sampleRate
      · simp [needsResample, h1, heq]
      · simp [needsResample, h1, heq]

theorem C1_output_bit_depth_witness :
    Effect.createWriter "a.wav.flac" 44100 2 24 5 ∈
        (step (demoWorld (fun _ => some (demoReader 10)) (fun _ => false)) ⟨0, 0, 5⟩
          demoEntry).effects ∧
      outBits ⟨0, 0, 5⟩ 32 = min 32 24 :=
  have h := C1_output_bit_depth (demoWorld (fun _ => some (demoReader 10)) (fun _ => false))
    ⟨0, 0, 5⟩ demoEntry 0 (demoReader 10) rfl rfl rfl
  ⟨h.1, (h.2.2.2.1 rfl).2⟩

theorem C2_output_sample_rate_witness :
    (step (demoWorld (fun _ => some (demoReader 10)) (fun _ => false)) ⟨0, 0, 5⟩
      demoEntry).pc = Pc.copyHead 0 10 0 :=
  ((C2_output_sample_rate (demoWorld (fun _ => some (demoReader 10)) (fun _ => false))
    ⟨0, 0, 5⟩ demoEntry 0 (demoReader 10) rfl rfl rfl rfl).1 rfl).2


/-! ## Resampled frame count (C3) -/

theorem outFrames_eq_floor {N : Int} {a b : ℚ} (hN : 0 ≤ N) (ha : 0 < a) (hb : 0 < b) :
    outFrames N a b = ⌊(N : ℚ) * b / a + 1 / 2⌋ := by
  have h : (0 : ℚ) ≤ (N : ℚ) * b / a + 1 / 2 := by
    have : (0 : ℚ) ≤ (N : ℚ) := by exact_mod_cast hN
    positivity
  rw [outFrames, truncToInt_of_nonneg h]

theorem outFrames_nonneg {N : Int} {a b : ℚ} (hN : 0 ≤ N) (ha : 0 < a) (hb : 0 < b) :
    0 ≤ outFrames N a b := by
  rw [outFrames_eq_floor hN ha hb]
  have : (0 : ℚ) ≤ (N : ℚ) := by exact_mod_cast hN
  exact Int.floor_nonneg.mpr (by positivity)

/-- The rounding bounds of `outFrames`, cleared of the division. -/
theorem outFrames_bounds {N : Int} {a b : ℚ} (hN : 0 ≤ N) (ha : 0 < a) (hb : 0 < b) :
    2 * (outFrames N a b : ℚ) * a ≤ 2 * N * b + a ∧
      2 * (N : ℚ) * b - a < 2 * (outFrames N a b : ℚ) * a := by
  rw [outFrames_eq_floor hN ha hb]
  have h1 := Int.floor_le ((N : ℚ) * b / a + 1 / 2)
  have h2 := Int.lt_floor_add_one ((N : ℚ) * b / a + 1 / 2)
  have hx : (N : ℚ) * b / a * a = N * b := by field_simp
  constructor
  · nlinarith [mul_le_mul_of_nonneg_right h1 ha.le]
  · nlinarith [mul_lt_mul_of_pos_right h2 ha]

theorem C3_round_trip_counterexample :
    ¬ (|outFrames (outFrames 2 192000 44100) 44100 192000 - 2| ≤ 1) := by
  have h1 : outFrames 2 192000 44100 = 0 := by
    rw [outFrames, truncToInt_of_nonneg (by norm_num)]
    norm_num [Int.floor_eq_iff]
  have h2 : outFrames 0 44100 192000 = 0 := by
    rw [outFrames, truncToInt_of_nonneg (by norm_num)]
    norm_num [Int.floor_eq_iff]
  rw [h1, h2]
  decide

/-- C3 (amended): for positive rates `A`, `B` and `N ≥ 0` frames, the round trip
`A → B → A` of the frame count computed by `convertFile` differs from `N` by at most
`(A + B) / (2 B)` frames, and by at most one frame whenever `A ≤ 3 B`. -/
theorem C3_round_trip_frames (N : Int) (A B : ℚ) (hN : 0 ≤ N) (hA : 0 < A) (hB : 0 < B) :
    2 * B * (|outFrames (outFrames N A B) B A - N| : Int) ≤ A + B ∧
      (A ≤ 3 * B → |outFrames (outFrames N A B) B A - N| ≤ 1) := by
  have hM := outFrames_nonneg hN hA hB
  obtain ⟨m1, m2⟩ := outFrames_bounds hN hA hB
  obtain ⟨r1, r2⟩ := outFrames_bounds hM hB hA
  set M := outFrames N A B with hMdef
  set R := outFrames M B A with hRdef
  have up : 2 * B * ((R : ℚ) - N) ≤ A + B := by nlinarith
  have lo : -(A + B) < 2 * B * ((R : ℚ) - N) := by nlinarith
  constructor
  · rcases abs_cases (R - N) with ⟨h, _⟩ | ⟨h, _⟩
    · rw [h]; push_cast; linarith
    · rw [h]; push_cast; linarith
  · intro h3
    have hlt2 : R - N < 2 := by
      by_contra hge
      push_neg at hge
      have hge' : (2 : ℚ) ≤ (R : ℚ) - N := by exact_mod_cast hge
      have e1 : A = 3 * B := by nlinarith
      have e2 : 2 * (M : ℚ) * A = 2 * N * B + A := by nlinarith
      rw [e1] at e2
      have e3 : 6 * (M : ℚ) = 2 * N + 3 := by
        have hB' : B ≠ 0 := hB.ne'
        apply mul_right_cancel₀ hB'
        linarith
      have e4 : 6 * M = 2 * N + 3 := by exact_mod_cast e3
      omega
    have hgt : -2 < R - N := by
      by_contra hle
      push_neg at hle
      have hle' : (R : ℚ) - N ≤ -2 := by exact_mod_cast hle
      nlinarith
    rw [abs_le]
    constructor <;> omega

theorem C3_round_trip_frames_witness :
    |outFrames (outFrames 1000 44100 48000) 48000 44100 - 1000| ≤ 1 :=
  (C3_round_trip_frames 1000 44100 48000 (by norm_num) (by norm_num) (by norm_num)).2
    (by norm_num)

/-! ## Basic facts about the job list and the step function -/

theorem length_setStatus (jobs : List ConversionJob) (i : Nat) (st : JobStatus) :
    (setStatus jobs i st).length = jobs.length := by
  unfold setStatus
  split <;> simp

theorem length_setErrorMessage (jobs : List ConversionJob) (i : Nat) (msg : String) :
    (setErrorMessage jobs i msg).length = jobs.length := by
  unfold setErrorMessage
  split <;> simp

theorem getElem?_setStatus (jobs : List ConversionJob) (i j : Nat) (st : JobStatus) :
    (setStatus jobs i st)[j]? =
      if i = j then (jobs[j]?).map (fun job => { job with status := st }) else jobs[j]? := by
  unfold setStatus
  by_cases h : i = j
  · subst h
    cases hj : jobs[i]? with
    | none => simp [hj]
    | some a =>
      have hlt : i < jobs.length := by
        rcases List.getElem?_eq_some_iff.mp hj with ⟨h, _⟩
        exact h
      simp [hlt]
  · cases hi : jobs[i]? with
    | none => simp [h]
    | some a => simp [h, List.getElem?_set_ne h]

theorem getElem?_setErrorMessage (jobs : List ConversionJob) (i j : Nat) (msg : String) :
    (setErrorMessage jobs i msg)[j]? =
      if i = j then (jobs[j]?).map (fun job => { job with errorMessage := msg })
      else jobs[j]? := by
  unfold setErrorMessage
  by_cases h : i = j
  · subst h
    cases hj : jobs[i]? with
    | none => simp [hj]
    | some a =>
      have hlt : i < jobs.length := by
        rcases List.getElem?_eq_some_iff.mp hj with ⟨h, _⟩
        exact h
      simp [hlt]
  · cases hi : jobs[i]? with
    | none => simp [h]
    | some a => simp [h, List.getElem?_set_ne h]

theorem statusAt_setStatus (jobs : List ConversionJob) (i j : Nat) (st : JobStatus) :
    statusAt (setStatus jobs i st) j =
      if i = j then (statusAt jobs j).map (fun _ => st) else statusAt jobs j := by
  simp only [statusAt, getElem?_setStatus]
  split_ifs <;> cases jobs[j]? <;> simp

theorem statusAt_setErrorMessage (jobs : List ConversionJob) (i j : Nat) (msg : String) :
    statusAt (setErrorMessage jobs i msg) j = statusAt jobs j := by
  simp only [statusAt, getElem?_setErrorMessage]
  split_ifs <;> cases jobs[j]? <;> simp

theorem inputFileAt_setStatus (jobs : List ConversionJob) (i j : Nat) (st : JobStatus) :
    inputFileAt (setStatus jobs i st) j = inputFileAt jobs j := by
  simp only [inputFileAt, getElem?_setStatus]
  split_ifs <;> cases jobs[j]? <;> simp

theorem inputFileAt_setErrorMessage (jobs : List ConversionJob) (i j : Nat) (msg : String) :
    inputFileAt (setErrorMessage jobs i msg) j = inputFileAt jobs j := by
  simp only [inputFileAt, getElem?_setErrorMessage]
  split_ifs <;> cases jobs[j]? <;> simp

theorem runFor_zero (w : World) (s : ConversionSettings) (st : WorkerState) :
    runFor w s 0 st = st := rfl

theorem runFor_succ (w : World) (s : ConversionSettings) (n : Nat) (st : WorkerState) :
    runFor w s (n + 1) st = runFor w s n (step w s st) := rfl

theorem runFor_add (w : World) (s : ConversionSettings) (m n : Nat) (st : WorkerState) :
    runFor w s (m + n) st = runFor w s n (runFor w s m st) := by
  unfold runFor
  rw [Nat.add_comm, Function.iterate_add_apply]

theorem step_halted (w : World) (s : ConversionSettings) (st : WorkerState)
    (h : st.pc = Pc.halted) : step w s st = st := by
  simp [step, h]

theorem runFor_halted (w : World) (s : ConversionSettings) (n : Nat) (st : WorkerState)
    (h : st.pc = Pc.halted) : runFor w s n st = st := by
  induction n with
  | zero => rfl
  | succ n ih => rw [runFor_succ, step_halted w s st h, ih]

/-! ## One `convertFile` when the flag is never raised -/

theorem step_fileReturn (w : World) (s : ConversionSettings) (st : WorkerState) (i : Nat)
    (hc : ∀ t, w.threadShouldExit t = false) (hpc : st.pc = Pc.fileReturn i) :
    step w s st = { st with polls := st.polls + 1, pc := Pc.fileExit i true } := by
  simp [step, hpc, hc]

theorem blockLen_pos {total pos : Int} (h : pos < total) : 0 < min blockSize (total - pos) := by
  simp only [blockSize]
  omega

theorem blockLen_le {total pos : Int} : pos + min blockSize (total - pos) ≤ total := by
  simp only [blockSize]
  omega

theorem intraFile_nil (low : ℚ) : IntraFile low [] := by
  simp [IntraFile]

theorem intraFile_mono {low low' : ℚ} {evs : List ProgressEvent} (h : low' ≤ low)
    (hi : IntraFile low evs) : IntraFile low' evs := by
  refine ⟨fun e he => ?_, hi.2⟩
  obtain ⟨a, b, c, d, e1, e2⟩ := hi.1 e he
  exact ⟨a, b, c, d, le_trans h e1, e2⟩

/-- The events of one loop iteration followed by those of the rest of the loop. -/
theorem intraFile_append {total pos n : Int} (htot : 0 < total)
    (hn : 0 < n) (hle : pos + n ≤ total) {evs : List ProgressEvent}
    (hi : IntraFile (((pos + n : Int) : ℚ) / (total : ℚ)) evs) :
    IntraFile ((pos : ℚ) / (total : ℚ)) (intraFileEvents (pos + n) n total ++ evs) := by
  have htq : (0 : ℚ) < (total : ℚ) := by exact_mod_cast htot
  have hstep : (pos : ℚ) / (total : ℚ) ≤ ((pos + n : Int) : ℚ) / (total : ℚ) := by
    apply div_le_div_of_nonneg_right _ htq.le
    exact_mod_cast (by omega : pos ≤ pos + n)
  have hone : ((pos + n : Int) : ℚ) / (total : ℚ) ≤ 1 := by
    rw [div_le_one htq]
    exact_mod_cast hle
  unfold intraFileEvents
  split_ifs with hpass
  · refine ⟨fun e he => ?_, ?_⟩
    · rcases List.mem_append.mp he with h | h
      · simp only [List.mem_singleton] at h
        subst h
        exact ⟨rfl, rfl, rfl, rfl, hstep, hone⟩
      · obtain ⟨a, b, c, d, e1, e2⟩ := hi.1 e h
        exact ⟨a, b, c, d, le_trans hstep e1, e2⟩
    · simp only [List.singleton_append, List.map_cons, List.pairwise_cons]
      refine ⟨fun q hq => ?_, hi.2⟩
      obtain ⟨e, he, rfl⟩ := List.mem_map.mp hq
      exact (hi.1 e he).2.2.2.2.1
  · simpa using intraFile_mono hstep hi

theorem copy_loop_outcome (w : World) (s : ConversionSettings)
    (hc : ∀ t, w.threadShouldExit t = false) (file : String) (numFrames : Int) :
    ∀ (gap : Nat) (pos : Int), 0 ≤ pos → (numFrames - pos).toNat ≤ gap →
      ∃ o : FileOutcome,
        (∀ st i, st.pc = Pc.copyHead i numFrames pos → inputFileAt st.jobs i = file →
          runFor w s o.steps st = applyOutcome st i o) ∧
        IntraFile ((pos : ℚ) / (numFrames : ℚ)) o.events ∧
        ((∀ p, w.writeOk file p = true) → o.ok = true) := by
  intro gap
  induction gap with
  | zero =>
    intro pos _ hgap
    have hpos : ¬ pos < numFrames := by omega
    refine ⟨⟨true, "", [], [], 1, 2⟩, ?_, intraFile_nil _, fun _ => rfl⟩
    intro st i hpc _
    have h1 : step w s st = { st with pc := Pc.fileReturn i } := by
      simp [step, hpc, copyStep, hpos]
    rw [runFor_succ, runFor_succ, runFor_zero, h1, step_fileReturn w s _ i hc rfl]
    simp [applyOutcome]
  | succ gap ih =>
    intro pos h0 hgap
    by_cases hlt : pos < numFrames
    · have hn := blockLen_pos hlt
      have hn' := @blockLen_le numFrames pos
      cases hwr : w.writeOk file pos with
      | false =>
        refine ⟨⟨false, "Write error", [],
          [Effect.read pos (min blockSize (numFrames - pos)),
           Effect.write (min blockSize (numFrames - pos))], 1, 1⟩, ?_, intraFile_nil _, ?_⟩
        · intro st i hpc hfile
          rw [runFor_succ, runFor_zero]
          simp [step, hpc, copyStep, hlt, hc, hfile, hwr, applyOutcome]
        · intro hall
          rw [hall] at hwr
          cases hwr
      | true =>
        obtain ⟨o, ho, hev, hok⟩ := ih (pos + min blockSize (numFrames - pos))
          (by omega) (by omega)
        refine ⟨⟨o.ok, o.message,
          intraFileEvents (pos + min blockSize (numFrames - pos))
            (min blockSize (numFrames - pos)) numFrames ++ o.events,
          [Effect.read pos (min blockSize (numFrames - pos)),
           Effect.write (min blockSize (numFrames - pos))] ++ o.effects,
          1 + o.polls, o.steps + 1⟩, ?_, ?_, hok⟩
        · intro st i hpc hfile
          have h1 : step w s st = { st with
              polls := st.polls + 1
              effects := st.effects ++ [Effect.read pos (min blockSize (numFrames - pos)),
                Effect.write (min blockSize (numFrames - pos))]
              events := st.events ++ intraFileEvents (pos + min blockSize (numFrames - pos))
                (min blockSize (numFrames - pos)) numFrames
              pc := Pc.copyHead i numFrames (pos + min blockSize (numFrames - pos)) } := by
            simp [step, hpc, copyStep, hlt, hc, hfile, hwr]
          have h2 := ho (step w s st) i (by rw [h1]) (by rw [h1]; exact hfile)
          rw [runFor_succ, h2, h1]
          simp [applyOutcome, Nat.add_assoc]
        · exact intraFile_append (by omega) hn hn' hev
    · have hpos : ¬ pos < numFrames := hlt
      refine ⟨⟨true, "", [], [], 1, 2⟩, ?_, intraFile_nil _, fun _ => rfl⟩
      intro st i hpc _
      have h1 : step w s st = { st with pc := Pc.fileReturn i } := by
        simp [step, hpc, copyStep, hpos]
      rw [runFor_succ, runFor_succ, runFor_zero, h1, step_fileReturn w s _ i hc rfl]
      simp [applyOutcome]

theorem resample_loop_outcome (w : World) (s : ConversionSettings)
    (hc : ∀ t, w.threadShouldExit t = false) (file : String) (total : Int) :
    ∀ (gap : Nat) (written : Int), 0 ≤ written → (total - written).toNat ≤ gap →
      ∃ o : FileOutcome,
        (∀ st i, st.pc = Pc.resampleHead i total written → inputFileAt st.jobs i = file →
          runFor w s o.steps st = applyOutcome st i o) ∧
        IntraFile ((written : ℚ) / (total : ℚ)) o.events ∧
        ((∀ p, w.writeOk file p = true) → o.ok = true) := by
  intro gap
  induction gap with
  | zero =>
    intro written _ hgap
    have hpos : ¬ written < total := by omega
    refine ⟨⟨true, "", [], [Effect.releaseResources], 1, 2⟩, ?_, intraFile_nil _, fun _ => rfl⟩
    intro st i hpc _
    have h1 : step w s st = { st with
          effects := st.effects ++ [Effect.releaseResources]
          pc := Pc.fileReturn i } := by
      simp [step, hpc, resampleStep, hpos]
    rw [runFor_succ, runFor_succ, runFor_zero, h1, step_fileReturn w s _ i hc rfl]
    simp [applyOutcome]
  | succ gap ih =>
    intro written h0 hgap
    by_cases hlt : written < total
    · have hn := blockLen_pos hlt
      have hn' := @blockLen_le total written
      cases hwr : w.writeOk file written with
      | false =>
        refine ⟨⟨false, "Write error during resample", [],
          [Effect.getNextAudioBlock (min blockSize (total - written)),
           Effect.write (min blockSize (total - written)), Effect.releaseResources], 1, 1⟩, ?_, intraFile_nil _, ?_⟩
        · intro st i hpc hfile
          rw [runFor_succ, runFor_zero]
          simp [step, hpc, resampleStep, hlt, hc, hfile, hwr, applyOutcome]
        · intro hall
          rw [hall] at hwr
          cases hwr
      | true =>
        obtain ⟨o, ho, hev, hok⟩ := ih (written + min blockSize (total - written))
          (by omega) (by omega)
        refine ⟨⟨o.ok, o.message,
          intraFileEvents (written + min blockSize (total - written))
            (min blockSize (total - written)) total ++ o.events,
          [Effect.getNextAudioBlock (min blockSize (total - written)),
           Effect.write (min blockSize (total - written))] ++ o.effects,
          1 + o.polls, o.steps + 1⟩, ?_, ?_, hok⟩
        · intro st i hpc hfile
          have h1 : step w s st = { st with
              polls := st.polls + 1
              effects := st.effects ++ [Effect.getNextAudioBlock (min blockSize (total - written)),
                Effect.write (min blockSize (total - written))]
              events := st.events ++ intraFileEvents (written + min blockSize (total - written))
                (min blockSize (total - written)) total
              pc := Pc.resampleHead i total (written + min blockSize (total - written)) } := by
            simp [step, hpc, resampleStep, hlt, hc, hfile, hwr]
          have h2 := ho (step w s st) i (by rw [h1]) (by rw [h1]; exact hfile)
          rw [runFor_succ, h2, h1]
          simp [applyOutcome, Nat.add_assoc]
        · exact intraFile_append (by omega) hn hn' hev
    · have hpos : ¬ written < total := hlt
      refine ⟨⟨true, "", [], [Effect.releaseResources], 1, 2⟩, ?_, intraFile_nil _, fun _ => rfl⟩
      intro st i hpc _
      have h1 : step w s st = { st with
          effects := st.effects ++ [Effect.releaseResources]
          pc := Pc.fileReturn i } := by
        simp [step, hpc, resampleStep, hpos]
      rw [runFor_succ, runFor_succ, runFor_zero, h1, step_fileReturn w s _ i hc rfl]
      simp [applyOutcome]

theorem file_outcome (w : World) (s : ConversionSettings)
    (hc : ∀ t, w.threadShouldExit t = false) (file : String) :
    ∃ o : FileOutcome,
      (∀ st i, st.pc = Pc.fileEntry i → inputFileAt st.jobs i = file →
        runFor w s o.steps st = applyOutcome st i o) ∧
      IntraFile 0 o.events ∧
      (w.createReaderFor file = none →
        o.ok = false ∧ o.message = "Cannot read: " ++ w.getFileName file ∧ o.events = []) ∧
      (FileConverts w s file → o.ok = true) := by
  cases hr : w.createReaderFor file with
  | none =>
    refine ⟨⟨false, "Cannot read: " ++ w.getFileName file, [], [], 0, 1⟩, ?_,
      intraFile_nil _, fun _ => ⟨rfl, rfl, rfl⟩, ?_⟩
    · intro st i hpc hfile
      rw [runFor_succ, runFor_zero]
      simp [step, hpc, openFile, hfile, hr, applyOutcome]
    · rintro ⟨reader, h, _⟩
      rw [hr] at h
      cases h
  | some reader =>
    cases ho : w.failedToOpen (w.withFlacExtension file) with
    | true =>
      refine ⟨⟨false, "Cannot write: " ++ w.withFlacExtension file, [], [], 0, 1⟩, ?_,
        intraFile_nil _, (fun h => by cases h), ?_⟩
      · intro st i hpc hfile
        rw [runFor_succ, runFor_zero]
        simp [step, hpc, openFile, hfile, hr, ho, applyOutcome]
      · rintro ⟨reader', _, h, _⟩
        rw [ho] at h
        cases h
    | false =>
      cases hw : w.createWriterFor (w.withFlacExtension file) (outRate s reader.sampleRate)
          reader.numChannels (outBits s reader.bitsPerSample) s.flacQuality with
      | false =>
        refine ⟨⟨false, "FLAC writer failed (bit depth " ++
            toString (outBits s reader.bitsPerSample) ++ " unsupported?)", [],
          [Effect.createWriter (w.withFlacExtension file) (outRate s reader.sampleRate)
            reader.numChannels (outBits s reader.bitsPerSample) s.flacQuality], 0, 1⟩, ?_,
          intraFile_nil _, (fun h => by cases h), ?_⟩
        · intro st i hpc hfile
          rw [runFor_succ, runFor_zero]
          simp [step, hpc, openFile, hfile, hr, ho, hw, applyOutcome]
        · rintro ⟨reader', h1, _, h, _⟩
          rw [hr] at h1
          cases h1
          rw [hw] at h
          cases h
      | true =>
        have hloop : ∃ o' : FileOutcome,
            (∀ st i, st.pc = Pc.fileEntry i → inputFileAt st.jobs i = file →
              runFor w s o'.steps (step w s st) =
                applyOutcome { st with effects := st.effects ++
                  [Effect.createWriter (w.withFlacExtension file)
                    (outRate s reader.sampleRate) reader.numChannels
                    (outBits s reader.bitsPerSample) s.flacQuality] } i o') ∧
            IntraFile 0 o'.events ∧ ((∀ p, w.writeOk file p = true) → o'.ok = true) := by
          cases hres : needsResample s reader.sampleRate with
          | false =>
            obtain ⟨o', h1, h2, h3⟩ := copy_loop_outcome w s hc file reader.lengthInSamples
              (reader.lengthInSamples - 0).toNat 0 le_rfl le_rfl
            refine ⟨o', ?_, by simpa using h2, h3⟩
            intro st i hpc hfile
            have hst : step w s st = openFile w s st i := by simp only [step, hpc]
            rw [hst, openFile_of_writer w s st i reader (by rw [hfile]; exact hr)
              (by rw [hfile]; exact ho) (by rw [hfile]; exact hw), hres]
            simp only [Bool.false_eq_true, if_false, hfile]
            exact h1 _ i rfl hfile
          | true =>
            obtain ⟨o', h1, h2, h3⟩ := resample_loop_outcome w s hc file
              (outFrames reader.lengthInSamples reader.sampleRate (outRate s reader.sampleRate))
              (outFrames reader.lengthInSamples reader.sampleRate
                (outRate s reader.sampleRate) - 0).toNat 0 le_rfl le_rfl
            refine ⟨⟨o'.ok, o'.message, o'.events,
              [Effect.read 0 (toInt32 reader.lengthInSamples),
               Effect.setResamplingRatio (reader.sampleRate / outRate s reader.sampleRate),
               Effect.prepareToPlay blockSize (outRate s reader.sampleRate)] ++ o'.effects,
              o'.polls, o'.steps⟩, ?_, by simpa using h2, h3⟩
            intro st i hpc hfile
            have hst : step w s st = openFile w s st i := by simp only [step, hpc]
            rw [hst, openFile_of_writer w s st i reader (by rw [hfile]; exact hr)
              (by rw [hfile]; exact ho) (by rw [hfile]; exact hw), hres]
            simp only [if_true, hfile]
            refine Eq.trans (h1 _ i rfl (by exact hfile)) ?_
            simp [applyOutcome]
        obtain ⟨o', h1, h2, h3⟩ := hloop
        refine ⟨⟨o'.ok, o'.message, o'.events,
          [Effect.createWriter (w.withFlacExtension file) (outRate s reader.sampleRate)
            reader.numChannels (outBits s reader.bitsPerSample) s.flacQuality] ++ o'.effects,
          o'.polls, o'.steps + 1⟩, ?_, h2, (fun h => by cases h), ?_⟩
        · intro st i hpc hfile
          rw [runFor_succ, h1 st i hpc hfile]
          simp [applyOutcome]
        · rintro ⟨_, _, _, _, h⟩
          exact h3 h

/-! ## A whole batch when the flag is never raised -/

theorem getElem?_append_cons (pre : List ConversionJob) (job : ConversionJob)
    (rest : List ConversionJob) : (pre ++ job :: rest)[pre.length]? = some job := by
  rw [List.getElem?_append_right (le_refl _)]
  simp

theorem setStatus_append (pre : List ConversionJob) (job : ConversionJob)
    (rest : List ConversionJob) (st : JobStatus) :
    setStatus (pre ++ job :: rest) pre.length st = pre ++ { job with status := st } :: rest := by
  simp only [setStatus, getElem?_append_cons]
  rw [List.set_append_right _ _ (le_refl _)]
  simp

theorem setErrorMessage_append (pre : List ConversionJob) (job : ConversionJob)
    (rest : List ConversionJob) (msg : String) :
    setErrorMessage (pre ++ job :: rest) pre.length msg =
      pre ++ { job with errorMessage := msg } :: rest := by
  simp only [setErrorMessage, getElem?_append_cons]
  rw [List.set_append_right _ _ (le_refl _)]
  simp

theorem inputFileAt_append (pre : List ConversionJob) (job : ConversionJob)
    (rest : List ConversionJob) : inputFileAt (pre ++ job :: rest) pre.length = job.inputFile := by
  simp only [inputFileAt, getElem?_append_cons]

theorem errorMessageAt_append (pre : List ConversionJob) (job : ConversionJob)
    (rest : List ConversionJob) :
    errorMessageAt (pre ++ job :: rest) pre.length = job.errorMessage := by
  simp only [errorMessageAt, getElem?_append_cons]

theorem job_run (w : World) (s : ConversionSettings)
    (hc : ∀ t, w.threadShouldExit t = false) (o : FileOutcome) (file : String)
    (hspec : ∀ st i, st.pc = Pc.fileEntry i → inputFileAt st.jobs i = file →
      runFor w s o.steps st = applyOutcome st i o)
    (pre : List ConversionJob) (job : ConversionJob) (rest : List ConversionJob)
    (st : WorkerState) (hfile : job.inputFile = file) (hjobs : st.jobs = pre ++ job :: rest)
    (hpc : st.pc = Pc.forHead pre.length) :
    runFor w s (o.steps + 2) st =
      { jobs := pre ++ finished job o :: rest
        events := st.events ++ jobEvents (pre.length + (rest.length + 1)) pre.length job o
        effects := st.effects ++ o.effects
        polls := st.polls + 1 + o.polls
        pc := Pc.forHead (pre.length + 1) } := by
  have h1 : step w s st =
      { st with
        polls := st.polls + 1
        jobs := pre ++ { job with status := JobStatus.Converting } :: rest
        events := st.events ++ [⟨(pre.length : Int), 0,
          (pre.length : ℚ) / ((pre.length + (rest.length + 1) : Nat) : ℚ),
          JobStatus.Converting, ""⟩]
        pc := Pc.fileEntry pre.length } := by
    simp [step, hpc, hjobs, hc, setStatus_append]
  have h2 := hspec (step w s st) pre.length (by rw [h1])
    (by rw [h1]; simp only [inputFileAt_append]; exact hfile)
  rw [show o.steps + 2 = (o.steps + 1) + 1 from rfl, runFor_succ, runFor_add, h2, h1,
    runFor_succ, runFor_zero]
  cases hok : o.ok with
  | false =>
    simp [step, applyOutcome, hok, finishJob, setErrorMessage_append, setStatus_append,
      errorMessageAt_append, finished, jobEvents, Nat.add_assoc]
  | true =>
    simp [step, applyOutcome, hok, finishJob, setStatus_append,
      errorMessageAt_append, finished, jobEvents, Nat.add_assoc]

theorem run_from (w : World) (s : ConversionSettings)
    (hc : ∀ t, w.threadShouldExit t = false) (o : String → FileOutcome)
    (hspec : ∀ file st i, st.pc = Pc.fileEntry i → inputFileAt st.jobs i = file →
      runFor w s (o file).steps st = applyOutcome st i (o file)) :
    ∀ (suf pre : List ConversionJob) (st : WorkerState), st.jobs = pre ++ suf →
      st.pc = Pc.forHead pre.length →
      ∃ n effs p, runFor w s n st =
        { jobs := pre ++ suf.map (fun j => finished j (o j.inputFile))
          events := st.events ++ runEvents o (pre.length + suf.length) pre.length suf
          effects := st.effects ++ effs
          polls := st.polls + p
          pc := Pc.halted } := by
  intro suf
  induction suf with
  | nil =>
    intro pre st hjobs hpc
    refine ⟨1, [], 0, ?_⟩
    rw [runFor_succ, runFor_zero]
    simp only [List.append_nil] at hjobs
    simp [step, hpc, hjobs, runEvents]
  | cons job rest ih =>
    intro pre st hjobs hpc
    have h1 := job_run w s hc (o job.inputFile) job.inputFile (hspec job.inputFile)
      pre job rest st rfl hjobs hpc
    obtain ⟨n, effs, p, h2⟩ := ih (pre ++ [finished job (o job.inputFile)])
      (runFor w s ((o job.inputFile).steps + 2) st) (by rw [h1]; simp)
      (by rw [h1]; simp)
    refine ⟨(o job.inputFile).steps + 2 + n, (o job.inputFile).effects ++ effs,
      1 + (o job.inputFile).polls + p, ?_⟩
    rw [runFor_add, h2, h1]
    simp [runEvents, Nat.add_assoc, Nat.add_comm 1 rest.length]

/-- When the flag is never raised, every batch runs to completion: there is one
outcome per input path such that the run on any job list halts with every job
`finished` by its file's outcome and with the events `runEvents`. -/
theorem run_batch (w : World) (s : ConversionSettings)
    (hc : ∀ t, w.threadShouldExit t = false) :
    ∃ o : String → FileOutcome,
      (∀ file, IntraFile 0 (o file).events ∧
        (w.createReaderFor file = none →
          (o file).ok = false ∧ (o file).message = "Cannot read: " ++ w.getFileName file ∧
          (o file).events = []) ∧
        (FileConverts w s file → (o file).ok = true)) ∧
      ∀ jobs : List ConversionJob, ∃ n effs p,
        runFor w s n (initWorker jobs) =
          { jobs := jobs.map (fun j => finished j (o j.inputFile))
            events := runEvents o jobs.length 0 jobs
            effects := effs
            polls := p
            pc := Pc.halted } := by
  have hall := fun file => file_outcome w s hc file
  choose o h1 h2 h3 h4 using hall
  refine ⟨o, fun file => ⟨h2 file, h3 file, h4 file⟩, fun jobs => ?_⟩
  obtain ⟨n, effs, p, h⟩ := run_from w s hc o h1 jobs [] (initWorker jobs)
    (by simp [initWorker]) (by simp [initWorker])
  exact ⟨n, effs, p, by simpa [initWorker] using h⟩

/-! ## The sequential invariant of the worker -/

theorem openFile_shape (w : World) (s : ConversionSettings) (st : WorkerState) (i : Nat) :
    (∀ j, statusAt (openFile w s st i).jobs j = statusAt st.jobs j) ∧
      (openFile w s st i).jobs.length = st.jobs.length ∧
      currentJob (openFile w s st i).pc = some i := by
  simp only [openFile]
  split
  · simp [statusAt_setErrorMessage, length_setErrorMessage, currentJob]
  · split_ifs <;> simp [statusAt_setErrorMessage, length_setErrorMessage, currentJob]

theorem copyStep_shape (w : World) (st : WorkerState) (i : Nat) (numFrames pos : Int) :
    (∀ j, statusAt (copyStep w st i numFrames pos).jobs j = statusAt st.jobs j) ∧
      (copyStep w st i numFrames pos).jobs.length = st.jobs.length ∧
      currentJob (copyStep w st i numFrames pos).pc = some i := by
  simp only [copyStep]
  split_ifs <;> simp [statusAt_setErrorMessage, length_setErrorMessage, currentJob]

theorem resampleStep_shape (w : World) (st : WorkerState) (i : Nat) (total written : Int) :
    (∀ j, statusAt (resampleStep w st i total written).jobs j = statusAt st.jobs j) ∧
      (resampleStep w st i total written).jobs.length = st.jobs.length ∧
      currentJob (resampleStep w st i total written).pc = some i := by
  simp only [resampleStep]
  split_ifs <;> simp [statusAt_setErrorMessage, length_setErrorMessage, currentJob]

theorem inFile_congr {jobs jobs' : List ConversionJob} {i : Nat}
    (hs : ∀ j, statusAt jobs' j = statusAt jobs j) (hl : jobs'.length = jobs.length)
    (h : InFile jobs i) : InFile jobs' i := by
  obtain ⟨h1, h2, h3, h4⟩ := h
  refine ⟨by omega, fun j hj => ?_, by rw [hs]; exact h3, fun j hj hj' => ?_⟩
  · rw [hs]
    exact h2 j hj
  · rw [hs]
    exact h4 j hj (by omega)

theorem inFile_of_atHead {jobs : List ConversionJob} {i : Nat} (h : AtHead jobs i)
    (hi : i < jobs.length) : InFile (setStatus jobs i JobStatus.Converting) i := by
  obtain ⟨_, h2, h3⟩ := h
  refine ⟨by rw [length_setStatus]; exact hi, fun j hj => ?_, ?_, fun j hj hj' => ?_⟩
  · rw [statusAt_setStatus, if_neg (by omega)]
    exact h2 j hj
  · rw [statusAt_setStatus, if_pos rfl, h3 i le_rfl hi]
    rfl
  · rw [length_setStatus] at hj'
    rw [statusAt_setStatus, if_neg (by omega)]
    exact h3 j (by omega) hj'

theorem atHead_of_inFile {jobs : List ConversionJob} {i : Nat} (h : InFile jobs i)
    (status : JobStatus) (ht : isTerminal status = true) :
    AtHead (setStatus jobs i status) (i + 1) := by
  obtain ⟨h1, h2, h3, h4⟩ := h
  refine ⟨by rw [length_setStatus]; omega, fun j hj => ?_, fun j hj hj' => ?_⟩
  · by_cases hji : i = j
    · subst hji
      refine ⟨status, ?_, ht⟩
      rw [statusAt_setStatus, if_pos rfl, h3]
      rfl
    · rw [statusAt_setStatus, if_neg hji]
      exact h2 j (by omega)
  · rw [length_setStatus] at hj'
    rw [statusAt_setStatus, if_neg (by omega)]
    exact h4 j hj hj'

theorem workerInv_step (w : World) (s : ConversionSettings) (st : WorkerState)
    (h : WorkerInv st) : WorkerInv (step w s st) := by
  obtain ⟨hin, hhead, hhalt⟩ := h
  cases hpc : st.pc with
  | forHead i =>
    have hat := hhead i hpc
    simp only [step, hpc]
    by_cases hi : i < st.jobs.length
    · cases hx : w.threadShouldExit st.polls with
      | true =>
        simp only [hi, if_true]
        exact ⟨fun j hj => by simp [currentJob] at hj, fun j hj => by simp at hj,
          fun _ => ⟨i, hat⟩⟩
      | false =>
        simp only [hi, if_true, Bool.false_eq_true, if_false]
        refine ⟨fun j hj => ?_, fun j hj => by simp at hj, fun hj => by simp at hj⟩
        simp only [currentJob, Option.some.injEq] at hj
        subst hj
        exact inFile_of_atHead hat hi
    · simp only [hi, if_false]
      exact ⟨fun j hj => by simp [currentJob] at hj, fun j hj => by simp at hj,
        fun _ => ⟨i, hat⟩⟩
  | fileEntry i =>
    have hif := hin i (by rw [hpc]; rfl)
    obtain ⟨a, b, c⟩ := openFile_shape w s st i
    simp only [step, hpc]
    refine ⟨fun j hj => ?_, fun j hj => ?_, fun hj => ?_⟩
    · rw [c] at hj
      cases hj
      exact inFile_congr a b hif
    · rw [hj] at c
      simp [currentJob] at c
    · rw [hj] at c
      simp [currentJob] at c
  | copyHead i numFrames pos =>
    have hif := hin i (by rw [hpc]; rfl)
    obtain ⟨a, b, c⟩ := copyStep_shape w st i numFrames pos
    simp only [step, hpc]
    refine ⟨fun j hj => ?_, fun j hj => ?_, fun hj => ?_⟩
    · rw [c] at hj
      cases hj
      exact inFile_congr a b hif
    · rw [hj] at c
      simp [currentJob] at c
    · rw [hj] at c
      simp [currentJob] at c
  | resampleHead i total written =>
    have hif := hin i (by rw [hpc]; rfl)
    obtain ⟨a, b, c⟩ := resampleStep_shape w st i total written
    simp only [step, hpc]
    refine ⟨fun j hj => ?_, fun j hj => ?_, fun hj => ?_⟩
    · rw [c] at hj
      cases hj
      exact inFile_congr a b hif
    · rw [hj] at c
      simp [currentJob] at c
    · rw [hj] at c
      simp [currentJob] at c
  | fileReturn i =>
    have hif := hin i (by rw [hpc]; rfl)
    simp only [step, hpc]
    refine ⟨fun j hj => ?_, fun j hj => by simp at hj, fun hj => by simp at hj⟩
    simp only [currentJob, Option.some.injEq] at hj
    subst hj
    exact hif
  | fileExit i ok =>
    have hif := hin i (by rw [hpc]; rfl)
    simp only [step, hpc, finishJob]
    refine ⟨fun j hj => by simp [currentJob] at hj, fun j hj => ?_, fun hj => by simp at hj⟩
    simp only [Pc.forHead.injEq] at hj
    subst hj
    exact atHead_of_inFile hif _ (by cases ok <;> simp [isTerminal])
  | halted =>
    rw [step_halted w s st hpc]
    exact ⟨hin, hhead, hhalt⟩

theorem workerInv_init (jobs : List ConversionJob)
    (hq : ∀ j ∈ jobs, j.status = JobStatus.Queued) : WorkerInv (initWorker jobs) := by
  refine ⟨fun i hi => by simp [initWorker, currentJob] at hi, fun i hi => ?_,
    fun hi => by simp [initWorker] at hi⟩
  simp only [initWorker, Pc.forHead.injEq] at hi
  subst hi
  refine ⟨Nat.zero_le _, fun j hj => by omega, fun j _ hj => ?_⟩
  simp only [initWorker] at hj ⊢
  simp only [statusAt, List.getElem?_eq_getElem hj, Option.map_some', Option.some.injEq]
  exact hq _ (List.getElem_mem _)

theorem workerInv_runFor (w : World) (s : ConversionSettings) (jobs : List ConversionJob)
    (hq : ∀ j ∈ jobs, j.status = JobStatus.Queued) (n : Nat) :
    WorkerInv (runFor w s n (initWorker jobs)) := by
  induction n with
  | zero => exact workerInv_init jobs hq
  | succ n ih =>
    rw [show n + 1 = n + 1 from rfl, runFor_add, runFor_succ, runFor_zero]
    exact workerInv_step w s _ ih

/-! ## Cancellation (C4) -/

theorem C4_cancellation_counterexample :
    (runFor (cancelWorld 2) ⟨0, 0, 5⟩ 3 (initWorker twoJobs)).pc = Pc.copyHead 0 16384 8192 ∧
      (cancelWorld 2).threadShouldExit
        (runFor (cancelWorld 2) ⟨0, 0, 5⟩ 3 (initWorker twoJobs)).polls = true ∧
      statusAt (runFor (cancelWorld 2) ⟨0, 0, 5⟩ 3 (initWorker twoJobs)).jobs 0 =
        some JobStatus.Converting ∧
      (runFor (cancelWorld 2) ⟨0, 0, 5⟩ 7 (initWorker twoJobs)).pc = Pc.halted ∧
      statusAt (runFor (cancelWorld 2) ⟨0, 0, 5⟩ 7 (initWorker twoJobs)).jobs 0 =
        some JobStatus.Error ∧
      (runFor (cancelWorld 2) ⟨0, 0, 5⟩ 7 (initWorker twoJobs)).events =
        (runFor (cancelWorld 2) ⟨0, 0, 5⟩ 3 (initWorker twoJobs)).events ++
          [⟨0, 1, 1 / 2, JobStatus.Error, ""⟩] ∧
      ¬ (statusAt (runFor (cancelWorld 2) ⟨0, 0, 5⟩ 7 (initWorker twoJobs)).jobs 0 =
          some JobStatus.Converting ∧
        (runFor (cancelWorld 2) ⟨0, 0, 5⟩ 7 (initWorker twoJobs)).events =
          (runFor (cancelWorld 2) ⟨0, 0, 5⟩ 3 (initWorker twoJobs)).events) := by
  decide!

theorem cancel_in_loop (w : World) (s : ConversionSettings) (st : WorkerState) (k : Nat)
    (total written : Int)
    (hflag : ∀ t, st.polls ≤ t → w.threadShouldExit t = true)
    (hpc : st.pc = Pc.copyHead k total written ∨ st.pc = Pc.resampleHead k total written)
    (hlt : written < total) :
    (runFor w s 4 st).pc = Pc.halted ∧
      (runFor w s 4 st).jobs = setStatus st.jobs k JobStatus.Error ∧
      (runFor w s 4 st).events = st.events ++
        [⟨(k : Int), 1, ((k : ℚ) + 1) / (st.jobs.length : ℚ), JobStatus.Error,
          errorMessageAt st.jobs k⟩] := by
  have f0 := hflag st.polls le_rfl
  have f1 := hflag (st.polls + 1) (by omega)
  have f2 := hflag (st.polls + 1 + 1) (by omega)
  have h1 : ∃ effs, step w s st =
      { st with polls := st.polls + 1, effects := st.effects ++ effs, pc := Pc.fileReturn k } := by
    rcases hpc with hpc | hpc
    · exact ⟨[], by simp [step, hpc, copyStep, hlt, f0]⟩
    · exact ⟨[Effect.releaseResources], by simp [step, hpc, resampleStep, hlt, f0]⟩
  obtain ⟨effs, h1⟩ := h1
  have h4 : runFor w s 4 st = step w s (step w s (step w s (step w s st))) := rfl
  rw [h4, h1]
  by_cases hk : k + 1 < st.jobs.length
  · simp [step, f1, f2, finishJob, length_setStatus, hk]
  · simp [step, f1, finishJob, length_setStatus, hk]

/-- C4 (amended): let the worker, started on an all-`Queued` batch, be in a state in
which the flag is set and stays set. At the job boundary before job `k` the next step
halts the run with the job list and the event list untouched, jobs before `k` terminal
and job `k` and every later job still `Queued`. At a loop test of job `k` between two
block writes (direct-copy or resampling loop) `convertFile` returns false: four steps
later the run has halted, job `k` has gone from `Converting` to `Error`, every other
job is unchanged (the later ones still `Queued`), no intra-file event has been posted,
and exactly one further event has been posted, the job-complete event of job `k`
with status `Error`. -/
theorem C4_cancellation (w : World) (s : ConversionSettings) (jobs : List ConversionJob)
    (hq : ∀ j ∈ jobs, j.status = JobStatus.Queued) (n0 k : Nat) (st : WorkerState)
    (hst : st = runFor w s n0 (initWorker jobs))
    (hflag : ∀ t, st.polls ≤ t → w.threadShouldExit t = true) :
    (st.pc = Pc.forHead k → k < st.jobs.length →
        (step w s st).pc = Pc.halted ∧ (step w s st).jobs = st.jobs ∧
        (step w s st).events = st.events ∧
        TerminalBefore st.jobs k ∧ QueuedFrom st.jobs k) ∧
      (∀ total written : Int,
        st.pc = Pc.copyHead k total written ∨ st.pc = Pc.resampleHead k total written →
        written < total →
        (runFor w s 4 st).pc = Pc.halted ∧
        (runFor w s 4 st).jobs = setStatus st.jobs k JobStatus.Error ∧
        (runFor w s 4 st).events = st.events ++
          [⟨(k : Int), 1, ((k : ℚ) + 1) / (st.jobs.length : ℚ), JobStatus.Error,
            errorMessageAt st.jobs k⟩] ∧
        statusAt st.jobs k = some JobStatus.Converting ∧
        statusAt (runFor w s 4 st).jobs k = some JobStatus.Error ∧
        (∀ j, j ≠ k → (runFor w s 4 st).jobs[j]? = st.jobs[j]?) ∧
        TerminalBefore (runFor w s 4 st).jobs k ∧
        QueuedFrom (runFor w s 4 st).jobs (k + 1)) := by
  have hinv : WorkerInv st := by
    rw [hst]
    exact workerInv_runFor w s jobs hq n0
  constructor
  · intro hpc hk
    obtain ⟨_, hb, hqf⟩ := hinv.2.1 k hpc
    refine ⟨?_, ?_, ?_, hb, hqf⟩ <;> simp [step, hpc, hk, hflag st.polls le_rfl]
  · intro total written hpc hlt
    obtain ⟨h1, h2, h3⟩ := cancel_in_loop w s st k total written hflag hpc hlt
    have hcur : currentJob st.pc = some k := by
      rcases hpc with hpc | hpc <;> rw [hpc] <;> rfl
    obtain ⟨hk, hb, hconv, hqf⟩ := hinv.1 k hcur
    refine ⟨h1, h2, h3, hconv, ?_, fun j hj => ?_, fun j hj => ?_, fun j hj hj' => ?_⟩
    · rw [h2, statusAt_setStatus, if_pos rfl, hconv]
      rfl
    · rw [h2, getElem?_setStatus, if_neg (Ne.symm hj)]
    · rw [h2, statusAt_setStatus, if_neg (by omega)]
      exact hb j hj
    · rw [h2, length_setStatus] at hj'
      rw [h2, statusAt_setStatus, if_neg (by omega)]
      exact hqf j hj hj'

theorem C4_cancellation_witness :
    (runFor (cancelWorld 2) ⟨0, 0, 5⟩ 4
        (runFor (cancelWorld 2) ⟨0, 0, 5⟩ 3 (initWorker twoJobs))).pc = Pc.halted ∧
      statusAt (runFor (cancelWorld 2) ⟨0, 0, 5⟩ 4
        (runFor (cancelWorld 2) ⟨0, 0, 5⟩ 3 (initWorker twoJobs))).jobs 0 =
          some JobStatus.Error :=
  have h := (C4_cancellation (cancelWorld 2) ⟨0, 0, 5⟩ twoJobs (by decide) 3 0
    (runFor (cancelWorld 2) ⟨0, 0, 5⟩ 3 (initWorker twoJobs)) rfl
    (fun t ht => by
      have h2 : (runFor (cancelWorld 2) ⟨0, 0, 5⟩ 3 (initWorker twoJobs)).polls = 2 := by
        decide!
      rw [h2] at ht
      simp [cancelWorld, demoWorld, ht])).2 16384 8192 (Or.inl (by decide!)) (by decide)
  ⟨h.1, h.2.2.2.2.1⟩

/-! ## A failing job does not abort the batch (C5) -/

theorem mem_runEvents (o : String → FileOutcome) (total : Nat) :
    ∀ (jobs : List ConversionJob) (i k : Nat) (job : ConversionJob), jobs[k]? = some job →
      ∀ e ∈ jobEvents total (i + k) job (o job.inputFile), e ∈ runEvents o total i jobs := by
  intro jobs
  induction jobs with
  | nil => intro i k job h; simp at h
  | cons j rest ih =>
    intro i k job h e he
    cases k with
    | zero =>
      simp only [List.getElem?_cons_zero, Option.some.injEq] at h
      subst h
      simp only [runEvents, List.mem_append]
      exact Or.inl (by simpa using he)
    | succ k =>
      simp only [List.getElem?_cons_succ] at h
      simp only [runEvents, List.mem_append]
      refine Or.inr (ih (i + 1) k job h e ?_)
      rw [show i + 1 + k = i + (k + 1) by omega]
      exact he

theorem jobStarts_runEvents (o : String → FileOutcome) (total : Nat)
    (ho : ∀ file, ∀ e ∈ (o file).events, e.jobIndex = -1) :
    ∀ (jobs : List ConversionJob) (i : Nat),
      ((runEvents o total i jobs).filter isJobStart).map (fun e => e.jobIndex) =
        (List.range' i jobs.length).map Int.ofNat := by
  intro jobs
  induction jobs with
  | nil => intro i; simp [runEvents]
  | cons j rest ih =>
    intro i
    have hintra : (o j.inputFile).events.filter isJobStart = [] := by
      rw [List.filter_eq_nil_iff]
      intro e he
      simp [isJobStart, ho j.inputFile e he]
    have hfin : (finished j (o j.inputFile)).status ≠ JobStatus.Converting := by
      unfold finished
      split_ifs <;> simp
    simp only [runEvents, jobEvents, List.filter_append, List.map_append, ih (i + 1), hintra,
      List.length_cons, List.range'_succ, List.map_cons]
    simp [isJobStart, hfin]

theorem eraseIdx_map_status (jobs : List ConversionJob) (f : ConversionJob → ConversionJob)
    (k : Nat) :
    ((jobs.eraseIdx k).map f).map (fun j => j.status) =
      ((jobs.map f).map (fun j => j.status)).eraseIdx k := by
  induction jobs generalizing k with
  | nil => simp
  | cons j rest ih =>
    cases k with
    | zero => simp
    | succ k => simp [ih k]

/-- C5: when the reader cannot be opened for job `k` and the flag is never raised, the
run halts with job `k` in status `Error` and the message `Cannot read: <name>`, the
job-complete event for `k` carries that status and message, every job is started exactly
once and in list order, and the other jobs end with the statuses they have in the run
on the list without job `k`. -/
theorem C5_failing_job_does_not_abort (w : World) (s : ConversionSettings)
    (hc : ∀ t, w.threadShouldExit t = false) (jobs : List ConversionJob) (k : Nat)
    (job : ConversionJob) (hk : jobs[k]? = some job)
    (hfail : w.createReaderFor job.inputFile = none) :
    ∃ n m : Nat,
      (runFor w s n (initWorker jobs)).pc = Pc.halted ∧
      (runFor w s n (initWorker jobs)).jobs[k]? =
        some ⟨job.inputFile, "Cannot read: " ++ w.getFileName job.inputFile,
          JobStatus.Error⟩ ∧
      "Cannot read: " ++ w.getFileName job.inputFile =
        "Cannot read" ++ (": " ++ w.getFileName job.inputFile) ∧
      (⟨(k : Int), 1, ((k : ℚ) + 1) / (jobs.length : ℚ), JobStatus.Error,
          "Cannot read: " ++ w.getFileName job.inputFile⟩ : ProgressEvent) ∈
        (runFor w s n (initWorker jobs)).events ∧
      (((runFor w s n (initWorker jobs)).events.filter isJobStart).map
          (fun e => e.jobIndex) = (List.range jobs.length).map Int.ofNat) ∧
      (runFor w s m (initWorker (jobs.eraseIdx k))).pc = Pc.halted ∧
      (runFor w s m (initWorker (jobs.eraseIdx k))).jobs.map (fun j => j.status) =
        ((runFor w s n (initWorker jobs)).jobs.map (fun j => j.status)).eraseIdx k := by
  obtain ⟨o, ho, hrun⟩ := run_batch w s hc
  obtain ⟨n, effs, p, hn⟩ := hrun jobs
  obtain ⟨m, effs', p', hm⟩ := hrun (jobs.eraseIdx k)
  obtain ⟨hok, hmsg, -⟩ := (ho job.inputFile).2.1 hfail
  refine ⟨n, m, ?_, ?_, ?_, ?_, ?_, ?_, ?_⟩
  · rw [hn]
  · rw [hn]
    simp [hk, finished, hok, hmsg]
  · rw [← String.append_assoc]
    rfl
  · rw [hn]
    apply mem_runEvents o jobs.length jobs 0 k job hk
    simp [jobEvents, finished, hok, hmsg]
  · rw [hn]
    simp only
    rw [jobStarts_runEvents o jobs.length (fun file e he => ((ho file).1.1 e he).1) jobs 0,
      List.range_eq_range']
  · rw [hm]
  · rw [hm, hn]
    exact eraseIdx_map_status jobs _ k

theorem C5_failing_job_does_not_abort_witness :
    ∃ n m : Nat,
      (runFor (oneBadWorld "b.wav") ⟨0, 0, 5⟩ n (initWorker threeJobs)).jobs[1]? =
        some ⟨"b.wav", "Cannot read: b.wav", JobStatus.Error⟩ ∧
      (runFor (oneBadWorld "b.wav") ⟨0, 0, 5⟩ m (initWorker (threeJobs.eraseIdx 1))).jobs.map
          (fun j => j.status) =
        ((runFor (oneBadWorld "b.wav") ⟨0, 0, 5⟩ n (initWorker threeJobs)).jobs.map
          (fun j => j.status)).eraseIdx 1 := by
  obtain ⟨n, m, _, h2, _, _, _, _, h7⟩ :=
    C5_failing_job_does_not_abort (oneBadWorld "b.wav") ⟨0, 0, 5⟩ (fun _ => rfl) threeJobs 1
      ⟨"b.wav", "", JobStatus.Queued⟩ rfl rfl
  exact ⟨n, m, h2, h7⟩

/-! ## The job queue: `addFiles` (C6, C7) -/

theorem any_inputFile_iff (jobs : List ConversionJob) (p : String) :
    jobs.any (fun j => j.inputFile == p) = true ↔ p ∈ jobs.map (fun j => j.inputFile) := by
  simp only [List.any_eq_true, beq_iff_eq, List.mem_map]

/-- What the loop of `addFiles` appends to the queue. -/
theorem foldl_addFile (hasWav existsAsFile : String → Bool) :
    ∀ (paths : List String) (jobs : List ConversionJob),
      ∃ added : List ConversionJob,
        paths.foldl (addFile hasWav existsAsFile) jobs = jobs ++ added ∧
        (∀ j ∈ added, j.status = JobStatus.Queued ∧ j.errorMessage = "") ∧
        (∀ p, p ∈ added.map (fun j => j.inputFile) ↔
          p ∈ paths ∧ hasWav p = true ∧ existsAsFile p = true ∧
            p ∉ jobs.map (fun j => j.inputFile)) ∧
        (added.map (fun j => j.inputFile)).Pairwise
          (fun a b => paths.indexOf a < paths.indexOf b) := by
  intro paths
  induction paths with
  | nil =>
    intro jobs
    exact ⟨[], by simp, by simp, by simp, by simp⟩
  | cons p rest ih =>
    intro jobs
    by_cases hacc : hasWav p = true ∧ existsAsFile p = true ∧
        p ∉ jobs.map (fun j => j.inputFile)
    · obtain ⟨hw, he, hnew⟩ := hacc
      have hany : jobs.any (fun j => j.inputFile == p) = false := by
        rw [← Bool.not_eq_true, any_inputFile_iff]
        exact hnew
      have hstep : addFile hasWav existsAsFile jobs p =
          jobs ++ [⟨p, "", JobStatus.Queued⟩] := by
        simp [addFile, hw, he, hany]
      obtain ⟨added, h1, h2, h3, h4⟩ := ih (jobs ++ [⟨p, "", JobStatus.Queued⟩])
      have hne : ∀ a ∈ added.map (fun j => j.inputFile), p ≠ a := by
        intro a ha hpa
        have := ((h3 a).mp ha).2.2.2
        apply this
        simp [hpa]
      refine ⟨⟨p, "", JobStatus.Queued⟩ :: added, ?_, ?_, ?_, ?_⟩
      · rw [List.foldl_cons, hstep, h1]
        simp
      · intro j hj
        rcases List.mem_cons.mp hj with rfl | hj
        · exact ⟨rfl, rfl⟩
        · exact h2 j hj
      · intro q
        simp only [List.map_cons, List.mem_cons]
        constructor
        · rintro (rfl | hq)
          · exact ⟨Or.inl rfl, hw, he, hnew⟩
          · obtain ⟨a, b, c, d⟩ := (h3 q).mp hq
            refine ⟨Or.inr a, b, c, fun hmem => d ?_⟩
            simp only [List.map_append, List.mem_append]
            exact Or.inl hmem
        · rintro ⟨hq | hq, b, c, d⟩
          · exact Or.inl hq
          · by_cases hqp : q = p
            · exact Or.inl hqp
            · refine Or.inr ((h3 q).mpr ⟨hq, b, c, ?_⟩)
              simp only [List.map_append, List.mem_append, List.map_cons, List.map_nil,
                List.mem_singleton]
              rintro (h | h)
              · exact d h
              · exact hqp h
      · simp only [List.map_cons, List.pairwise_cons]
        constructor
        · intro a ha
          rw [List.indexOf_cons_self, List.indexOf_cons_ne _ (hne a ha)]
          exact Nat.succ_pos _
        · refine h4.imp_of_mem ?_
          intro a b ha hb hab
          rw [List.indexOf_cons_ne _ (hne a ha), List.indexOf_cons_ne _ (hne b hb)]
          exact Nat.succ_lt_succ hab
    · have hstep : addFile hasWav existsAsFile jobs p = jobs := by
        unfold addFile
        by_cases hw : hasWav p = true
        · by_cases he : existsAsFile p = true
          · have hmem : p ∈ jobs.map (fun j => j.inputFile) := by
              by_contra hcon
              exact hacc ⟨hw, he, hcon⟩
            simp [hw, he, (any_inputFile_iff jobs p).mpr hmem]
          · simp [he]
        · simp [hw]
      obtain ⟨added, h1, h2, h3, h4⟩ := ih jobs
      have hne : ∀ a ∈ added.map (fun j => j.inputFile), p ≠ a := by
        intro a ha hpa
        obtain ⟨_, b, c, d⟩ := (h3 a).mp ha
        exact hacc ⟨hpa ▸ b, hpa ▸ c, hpa ▸ d⟩
      refine ⟨added, ?_, h2, ?_, ?_⟩
      · rw [List.foldl_cons, hstep, h1]
      · intro q
        rw [h3 q]
        constructor
        · rintro ⟨a, b, c, d⟩
          exact ⟨List.mem_cons_of_mem _ a, b, c, d⟩
        · rintro ⟨a, b, c, d⟩
          rcases List.mem_cons.mp a with rfl | a
          · exact absurd ⟨b, c, d⟩ hacc
          · exact ⟨a, b, c, d⟩
      · refine h4.imp_of_mem ?_
        intro a b ha hb hab
        rw [List.indexOf_cons_ne _ (hne a ha), List.indexOf_cons_ne _ (hne b hb)]
        exact Nat.succ_lt_succ hab

/-- C6: `addFiles` on an empty queue yields as many jobs as there are distinct
candidate paths with the source extension that exist as files; every added job is
`Queued` with an empty error message, the jobs stand in the order of the first
occurrence of their paths and no two share a path. On any queue the existing jobs stay
unchanged as a prefix, and a duplicate-free queue stays duplicate-free. -/
theorem C6_addFiles_queue (hasWav existsAsFile : String → Bool) (c : ConverterComponent)
    (paths : List String) :
    (c.jobs = [] →
        (addFiles hasWav existsAsFile c paths).jobs.length =
          (paths.filter (fun p => hasWav p && existsAsFile p)).toFinset.card ∧
        (∀ j ∈ (addFiles hasWav existsAsFile c paths).jobs,
          j.status = JobStatus.Queued ∧ j.errorMessage = "") ∧
        ((addFiles hasWav existsAsFile c paths).jobs.map (fun j => j.inputFile)).Pairwise
          (fun a b => paths.indexOf a < paths.indexOf b) ∧
        ((addFiles hasWav existsAsFile c paths).jobs.map (fun j => j.inputFile)).Nodup) ∧
      (∃ added, (addFiles hasWav existsAsFile c paths).jobs = c.jobs ++ added ∧
        ∀ j ∈ added, j.status = JobStatus.Queued ∧ j.errorMessage = "") ∧
      ((c.jobs.map (fun j => j.inputFile)).Nodup →
        ((addFiles hasWav existsAsFile c paths).jobs.map (fun j => j.inputFile)).Nodup) := by
  obtain ⟨added, h1, h2, h3, h4⟩ := foldl_addFile hasWav existsAsFile paths c.jobs
  have hjobs : (addFiles hasWav existsAsFile c paths).jobs = c.jobs ++ added := h1
  have hnd : (added.map (fun j => j.inputFile)).Nodup := by
    refine h4.imp ?_
    intro a b hab heq
    rw [heq] at hab
    exact lt_irrefl _ hab
  refine ⟨?_, ⟨added, hjobs, h2⟩, ?_⟩
  · intro hempty
    rw [hjobs, hempty, List.nil_append]
    refine ⟨?_, h2, h4, hnd⟩
    rw [← List.length_map added (fun j => j.inputFile), ← List.toFinset_card_of_nodup hnd]
    congr 1
    ext p
    simp only [List.mem_toFinset, h3 p, hempty, List.map_nil, List.not_mem_nil,
      not_false_eq_true, and_true, List.mem_filter, Bool.and_eq_true]
  · intro hold
    rw [hjobs, List.map_append, List.nodup_append]
    refine ⟨hold, hnd, ?_⟩
    intro p hp hp'
    exact ((h3 p).mp hp').2.2.2 hp

theorem C6_addFiles_queue_witness :
    (addFiles demoHasWav (fun _ => true) (demoController []) demoPaths).jobs.length =
        (demoPaths.filter (fun p => demoHasWav p && true)).toFinset.card ∧
      ((addFiles demoHasWav (fun _ => true) (demoController []) demoPaths).jobs.map
        (fun j => j.inputFile)).Nodup :=
  have h := (C6_addFiles_queue demoHasWav (fun _ => true) (demoController []) demoPaths).1 rfl
  ⟨h.1, h.2.2.2⟩

/-- C7 (the code at the failing input): with the worker running, dropping an existing
`.wav` file that is not yet queued appends a job to the controller's queue. -/
theorem C7_filesDropped_while_running :
    (filesDropped (fun _ => true) (fun _ => true)
        { demoController [⟨"a.wav", "", JobStatus.Converting⟩] with threadRunning := true }
        ["b.wav"]).jobs =
      [⟨"a.wav", "", JobStatus.Converting⟩, ⟨"b.wav", "", JobStatus.Queued⟩] := by
  decide

/-! ## File progress is monotone and ends at 1 (C8) -/

theorem jobEvents_fileProgress (total i : Nat) (job : ConversionJob) (o : FileOutcome) :
    (jobEvents total i job o).map (fun e => e.fileProgress) =
      0 :: (o.events.map (fun e => e.fileProgress) ++ [1]) := by
  simp [jobEvents]

theorem pairwise_le_progress {evs : List ProgressEvent} (h : IntraFile 0 evs) :
    (0 :: (evs.map (fun e => e.fileProgress) ++ [1]) : List ℚ).Pairwise (fun a b => a ≤ b) := by
  have hb : ∀ q ∈ evs.map (fun e => e.fileProgress), (0 : ℚ) ≤ q ∧ q ≤ 1 := by
    intro q hq
    obtain ⟨e, he, rfl⟩ := List.mem_map.mp hq
    exact ⟨(h.1 e he).2.2.2.2.1, (h.1 e he).2.2.2.2.2⟩
  rw [List.pairwise_cons]
  constructor
  · intro q hq
    rcases List.mem_append.mp hq with hq | hq
    · exact (hb q hq).1
    · simp only [List.mem_singleton] at hq
      rw [hq]
      norm_num
  · rw [List.pairwise_append]
    refine ⟨h.2, List.pairwise_singleton _ _, ?_⟩
    intro a ha b hb'
    simp only [List.mem_singleton] at hb'
    rw [hb']
    exact (hb a ha).2

/-- C8: when the flag is never raised the run halts with its events being, job after
job, the job-start event, the intra-file events and the job-complete event
(`runEvents`); for every job whose conversion succeeds the job ends `Done`, its
intra-file events carry job index `-1`, and the file-progress values of its events, in
emission order, are non-decreasing, lie in `[0, 1]`, start with 0 and end with 1. The
outcome covers the direct-copy and the resampling loop alike. -/
theorem C8_file_progress_monotone (w : World) (s : ConversionSettings)
    (hc : ∀ t, w.threadShouldExit t = false) (jobs : List ConversionJob) :
    ∃ (o : String → FileOutcome) (n : Nat),
      (runFor w s n (initWorker jobs)).pc = Pc.halted ∧
      (runFor w s n (initWorker jobs)).events = runEvents o jobs.length 0 jobs ∧
      ∀ (i : Nat) (job : ConversionJob), jobs[i]? = some job →
        FileConverts w s job.inputFile →
        statusAt (runFor w s n (initWorker jobs)).jobs i = some JobStatus.Done ∧
        (∀ e ∈ (o job.inputFile).events, e.jobIndex = -1) ∧
        ((jobEvents jobs.length i job (o job.inputFile)).map
          (fun e => e.fileProgress)).Pairwise (fun a b => a ≤ b) ∧
        (∀ q ∈ (jobEvents jobs.length i job (o job.inputFile)).map
          (fun e => e.fileProgress), 0 ≤ q ∧ q ≤ 1) ∧
        ((jobEvents jobs.length i job (o job.inputFile)).map
          (fun e => e.fileProgress)).head? = some 0 ∧
        ((jobEvents jobs.length i job (o job.inputFile)).map
          (fun e => e.fileProgress)).getLast? = some 1 := by
  obtain ⟨o, ho, hrun⟩ := run_batch w s hc
  obtain ⟨n, effs, p, hn⟩ := hrun jobs
  refine ⟨o, n, by rw [hn], by rw [hn], ?_⟩
  intro i job hi hconv
  have hintra := (ho job.inputFile).1
  have hok := (ho job.inputFile).2.2 hconv
  refine ⟨?_, fun e he => (hintra.1 e he).1, ?_, ?_, ?_, ?_⟩
  · rw [hn]
    simp [statusAt, hi, finished, hok]
  · rw [jobEvents_fileProgress]
    exact pairwise_le_progress hintra
  · rw [jobEvents_fileProgress]
    intro q hq
    rcases List.mem_cons.mp hq with hq | hq
    · rw [hq]
      norm_num
    · rcases List.mem_append.mp hq with hq | hq
      · obtain ⟨e, he, rfl⟩ := List.mem_map.mp hq
        exact ⟨(hintra.1 e he).2.2.2.2.1, (hintra.1 e he).2.2.2.2.2⟩
      · simp only [List.mem_singleton] at hq
        rw [hq]
        norm_num
  · rw [jobEvents_fileProgress]
    rfl
  · rw [jobEvents_fileProgress, ← List.cons_append, List.getLast?_append]
    simp

theorem C8_file_progress_monotone_witness :
    ∃ n : Nat,
      (runFor (oneBadWorld "b.wav") ⟨48000, 0, 5⟩ n (initWorker threeJobs)).pc = Pc.halted ∧
      statusAt (runFor (oneBadWorld "b.wav") ⟨48000, 0, 5⟩ n (initWorker threeJobs)).jobs 0 =
        some JobStatus.Done := by
  obtain ⟨o, n, h1, _, h3⟩ :=
    C8_file_progress_monotone (oneBadWorld "b.wav") ⟨48000, 0, 5⟩ (fun _ => rfl) threeJobs
  exact ⟨n, h1, (h3 0 ⟨"a.wav", "", JobStatus.Queued⟩ rfl
    ⟨demoReader 20000, rfl, rfl, rfl, fun _ => rfl⟩).1⟩

/-! ## A batch in which every conversion succeeds (C9) -/

theorem boundary_runEvents (o : String → FileOutcome) (total : Nat)
    (ho : ∀ file, ∀ e ∈ (o file).events, e.jobIndex = -1) :
    ∀ (jobs : List ConversionJob) (i : Nat), (∀ j ∈ jobs, (o j.inputFile).ok = true) →
      (runEvents o total i jobs).filter isBoundary = successBoundary total i jobs := by
  intro jobs
  induction jobs with
  | nil => intro i _; simp [runEvents, successBoundary]
  | cons j rest ih =>
    intro i hok
    have hintra : (o j.inputFile).events.filter isBoundary = [] := by
      rw [List.filter_eq_nil_iff]
      intro e he
      simp [isBoundary, ho j.inputFile e he]
    have hj : (o j.inputFile).ok = true := hok j (List.mem_cons_self _ _)
    simp only [runEvents, jobEvents, List.filter_append, hintra,
      ih (i + 1) (fun j' hj' => hok j' (List.mem_cons_of_mem _ hj')), successBoundary]
    simp [isBoundary, finished, hj]

theorem successBoundary_lower (total : Nat) :
    ∀ (jobs : List ConversionJob) (i : Nat), ∀ e ∈ successBoundary total i jobs,
      (i : ℚ) / (total : ℚ) ≤ e.overallProgress := by
  intro jobs
  induction jobs with
  | nil => intro i e he; simp [successBoundary] at he
  | cons j rest ih =>
    intro i e he
    have hstep : (i : ℚ) / (total : ℚ) ≤ ((i : ℚ) + 1) / (total : ℚ) :=
      div_le_div_of_nonneg_right (by linarith) (Nat.cast_nonneg total)
    simp only [successBoundary, List.mem_cons] at he
    rcases he with rfl | rfl | he
    · exact le_rfl
    · exact hstep
    · have := ih (i + 1) e he
      push_cast at this
      exact le_trans hstep this

theorem successBoundary_pairwise (total : Nat) :
    ∀ (jobs : List ConversionJob) (i : Nat),
      ((successBoundary total i jobs).map (fun e => e.overallProgress)).Pairwise
        (fun a b => a ≤ b) := by
  intro jobs
  induction jobs with
  | nil => intro i; simp [successBoundary]
  | cons j rest ih =>
    intro i
    have hstep : (i : ℚ) / (total : ℚ) ≤ ((i : ℚ) + 1) / (total : ℚ) :=
      div_le_div_of_nonneg_right (by linarith) (Nat.cast_nonneg total)
    have hrest : ∀ q ∈ (successBoundary total (i + 1) rest).map (fun e => e.overallProgress),
        ((i : ℚ) + 1) / (total : ℚ) ≤ q := by
      intro q hq
      obtain ⟨e, he, rfl⟩ := List.mem_map.mp hq
      have := successBoundary_lower total rest (i + 1) e he
      push_cast at this
      exact this
    simp only [successBoundary, List.map_cons, List.pairwise_cons, List.mem_cons]
    refine ⟨?_, hrest, ih (i + 1)⟩
    rintro q (rfl | hq)
    · exact hstep
    · exact le_trans hstep (hrest q hq)

theorem runEvents_getLast (o : String → FileOutcome) (total : Nat) :
    ∀ (jobs : List ConversionJob) (i : Nat), jobs ≠ [] →
      ((runEvents o total i jobs).getLast?).map (fun e => e.overallProgress) =
        some (((i + jobs.length : Nat) : ℚ) / (total : ℚ)) := by
  intro jobs
  induction jobs with
  | nil => intro i h; exact absurd rfl h
  | cons j rest ih =>
    intro i _
    cases rest with
    | nil =>
      simp only [runEvents, List.append_nil, jobEvents, List.getLast?_append]
      simp
    | cons j' rest' =>
      have h := ih (i + 1) (List.cons_ne_nil _ _)
      rw [runEvents, List.getLast?_append]
      cases hl : (runEvents o total (i + 1) (j' :: rest')).getLast? with
      | none => rw [hl] at h; simp at h
      | some e =>
        rw [hl] at h
        simp only [Option.map_some', Option.some.injEq] at h
        simp only [Option.or, Option.map_some', h, Option.some.injEq, List.length_cons]
        congr 2
        omega
theorem deliver_append (c : ConverterComponent) (xs ys : List ProgressEvent) :
    deliver c (xs ++ ys) = deliver (deliver c xs) ys := by
  simp [deliver, List.foldl_append]

theorem onProgress_intra (c : ConverterComponent) (e : ProgressEvent)
    (h : e.jobIndex = -1 ∧ e.overallProgress = -1) :
    (onProgress c e).jobs = c.jobs ∧ (onProgress c e).overallProg = c.overallProg := by
  simp [onProgress, h.1, h.2]

theorem deliver_intra (evs : List ProgressEvent) :
    ∀ c : ConverterComponent, (∀ e ∈ evs, e.jobIndex = -1 ∧ e.overallProgress = -1) →
      (deliver c evs).jobs = c.jobs ∧ (deliver c evs).overallProg = c.overallProg := by
  induction evs with
  | nil => intro c _; simp [deliver]
  | cons e rest ih =>
    intro c h
    have h1 := onProgress_intra c e (h e (List.mem_cons_self _ _))
    have h2 := ih (onProgress c e) (fun e' he' => h e' (List.mem_cons_of_mem _ he'))
    simp only [deliver, List.foldl_cons] at h2 ⊢
    exact ⟨h2.1.trans h1.1, h2.2.trans h1.2⟩

theorem onProgress_boundary (c : ConverterComponent) (i : Nat) (fp op : ℚ)
    (status : JobStatus) (msg : String) (hi : i < c.jobs.length) (hs : status ≠ JobStatus.Error)
    (hop : 0 ≤ op) :
    (onProgress c ⟨(i : Int), fp, op, status, msg⟩).jobs = setStatus c.jobs i status ∧
      (onProgress c ⟨(i : Int), fp, op, status, msg⟩).overallProg = op := by
  have h1 : (i : Int) < (c.jobs.length : Int) := by exact_mod_cast hi
  simp [onProgress, h1, hs, hop]

theorem deliver_job (c : ConverterComponent) (total : Nat) (job : ConversionJob)
    (o : FileOutcome) (cpre : List ConversionJob) (cj : ConversionJob)
    (crest : List ConversionJob) (hjobs : c.jobs = cpre ++ cj :: crest)
    (hintra : ∀ e ∈ o.events, e.jobIndex = -1 ∧ e.overallProgress = -1) (hok : o.ok = true) :
    (deliver c (jobEvents total cpre.length job o)).jobs =
        cpre ++ { cj with status := JobStatus.Done } :: crest ∧
      (deliver c (jobEvents total cpre.length job o)).overallProg =
        ((cpre.length : ℚ) + 1) / (total : ℚ) := by
  have hlen : cpre.length < c.jobs.length := by simp [hjobs]
  have hop1 : (0 : ℚ) ≤ (cpre.length : ℚ) / (total : ℚ) := by positivity
  have hop2 : (0 : ℚ) ≤ ((cpre.length : ℚ) + 1) / (total : ℚ) := by positivity
  have h1 := onProgress_boundary c cpre.length 0 _ JobStatus.Converting "" hlen (by simp) hop1
  have h2 := deliver_intra o.events
    (onProgress c ⟨(cpre.length : Int), 0, (cpre.length : ℚ) / (total : ℚ),
      JobStatus.Converting, ""⟩) hintra
  have hlen' : cpre.length < (deliver (onProgress c ⟨(cpre.length : Int), 0,
      (cpre.length : ℚ) / (total : ℚ), JobStatus.Converting, ""⟩) o.events).jobs.length := by
    rw [h2.1, h1.1, length_setStatus]
    exact hlen
  have h3 := onProgress_boundary (deliver (onProgress c ⟨(cpre.length : Int), 0,
      (cpre.length : ℚ) / (total : ℚ), JobStatus.Converting, ""⟩) o.events) cpre.length 1
    (((cpre.length : ℚ) + 1) / (total : ℚ)) JobStatus.Done job.errorMessage hlen' (by simp) hop2
  have hev : jobEvents total cpre.length job o =
      [⟨(cpre.length : Int), 0, (cpre.length : ℚ) / (total : ℚ), JobStatus.Converting, ""⟩] ++
        o.events ++ [⟨(cpre.length : Int), 1, ((cpre.length : ℚ) + 1) / (total : ℚ),
          JobStatus.Done, job.errorMessage⟩] := by
    simp [jobEvents, finished, hok]
  rw [hev, deliver_append, deliver_append]
  have hsingle : ∀ (c' : ConverterComponent) (e : ProgressEvent),
      deliver c' [e] = onProgress c' e := fun _ _ => rfl
  rw [hsingle, hsingle]
  refine ⟨?_, h3.2⟩
  rw [h3.1, h2.1, h1.1, hjobs, setStatus_append, setStatus_append]

theorem deliver_run (o : String → FileOutcome) (total : Nat)
    (ho : ∀ file, ∀ e ∈ (o file).events, e.jobIndex = -1 ∧ e.overallProgress = -1) :
    ∀ (suf csuf cpre : List ConversionJob) (c : ConverterComponent), c.jobs = cpre ++ csuf →
      csuf.length = suf.length → (∀ j ∈ suf, (o j.inputFile).ok = true) →
      (deliver c (runEvents o total cpre.length suf)).jobs =
          cpre ++ csuf.map (fun j => { j with status := JobStatus.Done }) ∧
        (suf ≠ [] → (deliver c (runEvents o total cpre.length suf)).overallProg =
          ((cpre.length + suf.length : Nat) : ℚ) / (total : ℚ)) := by
  intro suf
  induction suf with
  | nil =>
    intro csuf cpre c hjobs hlen _
    have : csuf = [] := List.length_eq_zero.mp hlen
    subst this
    simp [runEvents, deliver, hjobs]
  | cons j rest ih =>
    intro csuf cpre c hjobs hlen hok
    cases csuf with
    | nil => simp at hlen
    | cons cj crest =>
      have hj := deliver_job c total j (o j.inputFile) cpre cj crest hjobs (ho j.inputFile)
        (hok j (List.mem_cons_self _ _))
      have hrec := ih crest (cpre ++ [{ cj with status := JobStatus.Done }])
        (deliver c (jobEvents total cpre.length j (o j.inputFile)))
        (by rw [hj.1]; simp) (by simpa using hlen)
        (fun j' hj' => hok j' (List.mem_cons_of_mem _ hj'))
      simp only [List.length_append, List.length_singleton] at hrec
      rw [runEvents, deliver_append]
      refine ⟨by rw [hrec.1]; simp, fun _ => ?_⟩
      cases rest with
      | nil =>
        simp only [runEvents, deliver, List.foldl_nil, List.length_singleton]
        rw [show List.foldl onProgress c (jobEvents total cpre.length j (o j.inputFile)) =
          deliver c (jobEvents total cpre.length j (o j.inputFile)) from rfl, hj.2]
        push_cast
        rfl
      | cons j' rest' =>
        rw [hrec.2 (List.cons_ne_nil _ _)]
        congr 2
        simp only [List.length_cons]
        omega

/-- C9: for a non-empty batch in which every conversion succeeds and the flag is never
raised, the run halts with every job `Done`; its job-boundary events are, for each job
`i` of `n`, the start event `(i, 0, i / n, Converting)` followed by the complete event
`(i, 1, (i + 1) / n, Done)`; their overall progress is non-decreasing and the last
event of the run has overall progress exactly 1; delivering the events in order through
`onProgress` to a controller with a queue of the same length leaves every job of the
queue `Done` and `overallProg = 1`. -/
theorem C9_successful_batch (w : World) (s : ConversionSettings)
    (hc : ∀ t, w.threadShouldExit t = false) (jobs : List ConversionJob) (hne : jobs ≠ [])
    (hall : ∀ job ∈ jobs, FileConverts w s job.inputFile) (c : ConverterComponent)
    (hlen : c.jobs.length = jobs.length) :
    ∃ n : Nat,
      (runFor w s n (initWorker jobs)).pc = Pc.halted ∧
      (runFor w s n (initWorker jobs)).jobs.length = jobs.length ∧
      (∀ j ∈ (runFor w s n (initWorker jobs)).jobs, j.status = JobStatus.Done) ∧
      (runFor w s n (initWorker jobs)).events.filter isBoundary =
        successBoundary jobs.length 0 jobs ∧
      (((runFor w s n (initWorker jobs)).events.filter isBoundary).map
        (fun e => e.overallProgress)).Pairwise (fun a b => a ≤ b) ∧
      ((runFor w s n (initWorker jobs)).events.getLast?).map (fun e => e.overallProgress) =
        some 1 ∧
      (deliver c (runFor w s n (initWorker jobs)).events).jobs.length = jobs.length ∧
      (∀ j ∈ (deliver c (runFor w s n (initWorker jobs)).events).jobs,
        j.status = JobStatus.Done) ∧
      (deliver c (runFor w s n (initWorker jobs)).events).overallProg = 1 := by
  obtain ⟨o, ho, hrun⟩ := run_batch w s hc
  obtain ⟨n, effs, p, hn⟩ := hrun jobs
  have hok : ∀ j ∈ jobs, (o j.inputFile).ok = true := fun j hj => (ho j.inputFile).2.2 (hall j hj)
  have hidx : ∀ file, ∀ e ∈ (o file).events, e.jobIndex = -1 :=
    fun file e he => ((ho file).1.1 e he).1
  have hintra : ∀ file, ∀ e ∈ (o file).events, e.jobIndex = -1 ∧ e.overallProgress = -1 :=
    fun file e he => ⟨((ho file).1.1 e he).1, ((ho file).1.1 e he).2.1⟩
  have hb := boundary_runEvents o jobs.length hidx jobs 0 hok
  have hd := deliver_run o jobs.length hintra jobs c.jobs [] c (by simp) hlen hok
  have hpos : (0 : ℚ) < (jobs.length : ℚ) := by
    have : 0 < jobs.length := List.length_pos.mpr hne
    exact_mod_cast this
  refine ⟨n, ?_, ?_, ?_, ?_, ?_, ?_, ?_, ?_, ?_⟩
  · rw [hn]
  · rw [hn]
    simp
  · rw [hn]
    intro j hj
    simp only [List.mem_map] at hj
    obtain ⟨j', hj', rfl⟩ := hj
    simp [finished, hok j' hj']
  · rw [hn]
    exact hb
  · rw [hn]
    simp only
    rw [hb]
    exact successBoundary_pairwise jobs.length jobs 0
  · rw [hn]
    simp only
    rw [runEvents_getLast o jobs.length jobs 0 hne]
    simp only [Nat.zero_add, Option.some.injEq]
    exact div_self hpos.ne'
  · rw [hn]
    simp only [List.length_nil] at hd
    rw [hd.1]
    simp [hlen]
  · rw [hn]
    simp only [List.length_nil] at hd
    rw [hd.1]
    intro j hj
    simp only [List.nil_append, List.mem_map] at hj
    obtain ⟨j', _, rfl⟩ := hj
    rfl
  · rw [hn]
    simp only [List.length_nil] at hd
    rw [hd.2 hne]
    simp only [Nat.zero_add]
    exact div_self hpos.ne'

theorem C9_successful_batch_witness :
    ∃ n : Nat,
      (runFor allGoodWorld ⟨0, 0, 5⟩ n (initWorker threeJobs)).pc = Pc.halted ∧
      (deliver (demoController threeJobs)
        (runFor allGoodWorld ⟨0, 0, 5⟩ n (initWorker threeJobs)).events).overallProg = 1 := by
  obtain ⟨n, h1, _, _, _, _, _, _, _, h9⟩ :=
    C9_successful_batch allGoodWorld ⟨0, 0, 5⟩ (fun _ => rfl) threeJobs (by decide)
      (fun _ _ => ⟨demoReader 20000, rfl, rfl, rfl, fun _ => rfl⟩)
      (demoController threeJobs) rfl
  exact ⟨n, h1, h9⟩

/-! ## Job status never reverts within a run (C10) -/

theorem statusAdvance_of_eq {jobs jobs' : List ConversionJob}
    (h : ∀ j, statusAt jobs' j = statusAt jobs j) : StatusAdvance jobs jobs' := by
  intro j a ha
  exact ⟨a, by rw [h, ha], le_rfl, fun _ => rfl⟩

theorem statusAdvance_setStatus {jobs : List ConversionJob} {i : Nat} {a s : JobStatus}
    (hi : statusAt jobs i = some a) (hr : statusRank a ≤ statusRank s)
    (ht : isTerminal a = false) : StatusAdvance jobs (setStatus jobs i s) := by
  intro j b hb
  by_cases hij : i = j
  · subst hij
    rw [hi] at hb
    cases hb
    refine ⟨s, by rw [statusAt_setStatus, if_pos rfl, hi]; rfl, hr, fun h => ?_⟩
    rw [ht] at h
    cases h
  · exact ⟨b, by rw [statusAt_setStatus, if_neg hij, hb], le_rfl, fun _ => rfl⟩

theorem step_statusAdvance (w : World) (s : ConversionSettings) (st : WorkerState)
    (h : WorkerInv st) : StatusAdvance st.jobs (step w s st).jobs := by
  obtain ⟨hin, hhead, _⟩ := h
  cases hpc : st.pc with
  | forHead i =>
    obtain ⟨_, _, hq⟩ := hhead i hpc
    simp only [step, hpc]
    by_cases hi : i < st.jobs.length
    · cases hx : w.threadShouldExit st.polls with
      | true =>
        simp only [hi, if_true]
        exact statusAdvance_of_eq (fun _ => rfl)
      | false =>
        simp only [hi, if_true, Bool.false_eq_true, if_false]
        exact statusAdvance_setStatus (hq i le_rfl hi) (by decide) (by decide)
    · simp only [hi, if_false]
      exact statusAdvance_of_eq (fun _ => rfl)
  | fileEntry i =>
    simp only [step, hpc]
    exact statusAdvance_of_eq (openFile_shape w s st i).1
  | copyHead i numFrames pos =>
    simp only [step, hpc]
    exact statusAdvance_of_eq (copyStep_shape w st i numFrames pos).1
  | resampleHead i total written =>
    simp only [step, hpc]
    exact statusAdvance_of_eq (resampleStep_shape w st i total written).1
  | fileReturn i =>
    simp only [step, hpc]
    exact statusAdvance_of_eq (fun _ => rfl)
  | fileExit i ok =>
    obtain ⟨_, _, hconv, _⟩ := hin i (by rw [hpc]; rfl)
    simp only [step, hpc, finishJob]
    exact statusAdvance_setStatus hconv (by cases ok <;> decide) (by decide)
  | halted =>
    rw [step_halted w s st hpc]
    exact statusAdvance_of_eq (fun _ => rfl)

theorem openFile_events (w : World) (s : ConversionSettings) (st : WorkerState) (i : Nat) :
    (openFile w s st i).events = st.events := by
  simp only [openFile]
  split
  · rfl
  · split_ifs <;> rfl

theorem intraFileEvents_cases (done n total : Int) :
    intraFileEvents done n total = [] ∨
      ∃ e, intraFileEvents done n total = [e] ∧ e.jobIndex = -1 ∧ e.overallProgress = -1 := by
  unfold intraFileEvents
  split_ifs
  · exact Or.inr ⟨_, rfl, rfl, rfl⟩
  · exact Or.inl rfl

theorem copyStep_events (w : World) (st : WorkerState) (i : Nat) (numFrames pos : Int) :
    (copyStep w st i numFrames pos).events = st.events ∨
      ∃ e, (copyStep w st i numFrames pos).events = st.events ++ [e] ∧ e.jobIndex = -1 ∧
        e.overallProgress = -1 := by
  simp only [copyStep]
  split_ifs
  · exact Or.inl rfl
  · exact Or.inl rfl
  · rcases intraFileEvents_cases (pos + min blockSize (numFrames - pos))
      (min blockSize (numFrames - pos)) numFrames with h | ⟨e, h, he⟩
    · exact Or.inl (by simp [h])
    · exact Or.inr ⟨e, by simp [h], he⟩
  · exact Or.inl rfl

theorem resampleStep_events (w : World) (st : WorkerState) (i : Nat) (total written : Int) :
    (resampleStep w st i total written).events = st.events ∨
      ∃ e, (resampleStep w st i total written).events = st.events ++ [e] ∧
        e.jobIndex = -1 ∧ e.overallProgress = -1 := by
  simp only [resampleStep]
  split_ifs
  · exact Or.inl rfl
  · exact Or.inl rfl
  · rcases intraFileEvents_cases (written + min blockSize (total - written))
      (min blockSize (total - written)) total with h | ⟨e, h, he⟩
    · exact Or.inl (by simp [h])
    · exact Or.inr ⟨e, by simp [h], he⟩
  · exact Or.inl rfl

/-- Each step posts at most one event; an event without a job index comes with no
status change, and a job-boundary event `(i, status)` comes with `status` assigned to
job `i`. -/
theorem step_events (w : World) (s : ConversionSettings) (st : WorkerState)
    (h : WorkerInv st) :
    ((step w s st).events = st.events ∧
        ∀ j, statusAt (step w s st).jobs j = statusAt st.jobs j) ∨
      (∃ e, (step w s st).events = st.events ++ [e] ∧
        (e.jobIndex = -1 ∧ e.overallProgress = -1) ∧
        ∀ j, statusAt (step w s st).jobs j = statusAt st.jobs j) ∨
      (∃ (i : Nat) (fp op : ℚ) (status : JobStatus) (msg : String), i < st.jobs.length ∧
        (step w s st).events = st.events ++ [⟨(i : Int), fp, op, status, msg⟩] ∧
        ∀ j, statusAt (step w s st).jobs j = statusAt (setStatus st.jobs i status) j) := by
  obtain ⟨hin, _, _⟩ := h
  cases hpc : st.pc with
  | forHead i =>
    by_cases hi : i < st.jobs.length
    · cases hx : w.threadShouldExit st.polls with
      | true =>
        have hst : step w s st = { st with polls := st.polls + 1, pc := Pc.halted } := by
          simp [step, hpc, hi, hx]
        rw [hst]
        exact Or.inl ⟨rfl, fun _ => rfl⟩
      | false =>
        have hst : step w s st = { st with
            polls := st.polls + 1
            jobs := setStatus st.jobs i JobStatus.Converting
            events := st.events ++
              [⟨(i : Int), 0, (i : ℚ) / (st.jobs.length : ℚ), JobStatus.Converting, ""⟩]
            pc := Pc.fileEntry i } := by
          simp [step, hpc, hi, hx]
        rw [hst]
        exact Or.inr (Or.inr ⟨i, _, _, _, _, hi, rfl, fun _ => rfl⟩)
    · have hst : step w s st = { st with pc := Pc.halted } := by
        simp [step, hpc, hi]
      rw [hst]
      exact Or.inl ⟨rfl, fun _ => rfl⟩
  | fileEntry i =>
    have hst : step w s st = openFile w s st i := by simp only [step, hpc]
    rw [hst]
    exact Or.inl ⟨openFile_events w s st i, (openFile_shape w s st i).1⟩
  | copyHead i numFrames pos =>
    have hst : step w s st = copyStep w st i numFrames pos := by simp only [step, hpc]
    rw [hst]
    rcases copyStep_events w st i numFrames pos with h | ⟨e, h, he⟩
    · exact Or.inl ⟨h, (copyStep_shape w st i numFrames pos).1⟩
    · exact Or.inr (Or.inl ⟨e, h, he, (copyStep_shape w st i numFrames pos).1⟩)
  | resampleHead i total written =>
    have hst : step w s st = resampleStep w st i total written := by simp only [step, hpc]
    rw [hst]
    rcases resampleStep_events w st i total written with h | ⟨e, h, he⟩
    · exact Or.inl ⟨h, (resampleStep_shape w st i total written).1⟩
    · exact Or.inr (Or.inl ⟨e, h, he, (resampleStep_shape w st i total written).1⟩)
  | fileReturn i =>
    have hst : step w s st = { st with
        polls := st.polls + 1
        pc := Pc.fileExit i (!w.threadShouldExit st.polls) } := by
      simp only [step, hpc]
    rw [hst]
    exact Or.inl ⟨rfl, fun _ => rfl⟩
  | fileExit i ok =>
    obtain ⟨hi, _⟩ := hin i (by rw [hpc]; rfl)
    have hst : step w s st = finishJob st i ok := by simp only [step, hpc]
    rw [hst]
    exact Or.inr (Or.inr ⟨i, _, _, _, _, hi, rfl, fun _ => rfl⟩)
  | halted =>
    rw [step_halted w s st hpc]
    exact Or.inl ⟨rfl, fun _ => rfl⟩

theorem statusAt_lt_length {jobs : List ConversionJob} {i : Nat} {a : JobStatus}
    (h : statusAt jobs i = some a) : i < jobs.length := by
  by_contra hcon
  simp [statusAt, List.getElem?_eq_none (not_lt.mp hcon)] at h

theorem statusAt_of_lt {jobs : List ConversionJob} {i : Nat} (h : i < jobs.length) :
    ∃ a, statusAt jobs i = some a := by
  simp [statusAt, List.getElem?_eq_getElem h]

theorem statusAt_setStatus_congr {a b : List ConversionJob}
    (h : ∀ j, statusAt a j = statusAt b j) (i : Nat) (s : JobStatus) (j : Nat) :
    statusAt (setStatus a i s) j = statusAt (setStatus b i s) j := by
  simp only [statusAt_setStatus, h]

theorem onProgress_status (c : ConverterComponent) (i : Nat) (fp op : ℚ)
    (status : JobStatus) (msg : String) (hi : i < c.jobs.length) (j : Nat) :
    statusAt (onProgress c ⟨(i : Int), fp, op, status, msg⟩).jobs j =
      statusAt (setStatus c.jobs i status) j := by
  have h1 : (i : Int) < (c.jobs.length : Int) := by exact_mod_cast hi
  by_cases hs : status = JobStatus.Error
  · simp [onProgress, h1, hs, statusAt_setErrorMessage]
  · simp [onProgress, h1, hs]

theorem deliver_snoc (c : ConverterComponent) (evs : List ProgressEvent) (e : ProgressEvent) :
    deliver c (evs ++ [e]) = onProgress (deliver c evs) e := by
  simp [deliver, List.foldl_append]

/-- Delivering the events a step posts changes the statuses of the controller's queue
exactly as the step changes the statuses of the worker's list. -/
theorem mirror_step (w : World) (s : ConversionSettings) (c : ConverterComponent)
    (st : WorkerState) (hinv : WorkerInv st)
    (hm : ∀ j, statusAt (deliver c st.events).jobs j = statusAt st.jobs j) :
    ∀ j, statusAt (deliver c (step w s st).events).jobs j = statusAt (step w s st).jobs j := by
  rcases step_events w s st hinv with ⟨he, hs⟩ | ⟨e, he, hi, hs⟩ |
    ⟨i, fp, op, status, msg, hi, he, hs⟩
  · intro j
    rw [he, hs, hm]
  · intro j
    rw [he, hs, deliver_snoc, (onProgress_intra _ e hi).1, hm]
  · intro j
    obtain ⟨a, ha⟩ := statusAt_of_lt hi
    have hi' : i < (deliver c st.events).jobs.length := by
      apply statusAt_lt_length (a := a)
      rw [hm, ha]
    rw [he, hs, deliver_snoc, onProgress_status _ i fp op status msg hi']
    exact statusAt_setStatus_congr hm i status j

theorem runFor_succ_last (w : World) (s : ConversionSettings) (n : Nat) (st : WorkerState) :
    runFor w s (n + 1) st = step w s (runFor w s n st) := by
  rw [runFor_add, runFor_succ, runFor_zero]

theorem mirror_runFor (w : World) (s : ConversionSettings) (jobs : List ConversionJob)
    (hq : ∀ j ∈ jobs, j.status = JobStatus.Queued) (c : ConverterComponent)
    (hcj : c.jobs = jobs) (n : Nat) :
    ∀ j, statusAt (deliver c (runFor w s n (initWorker jobs)).events).jobs j =
      statusAt (runFor w s n (initWorker jobs)).jobs j := by
  induction n with
  | zero =>
    intro j
    simp [runFor_zero, initWorker, deliver, hcj]
  | succ n ih =>
    rw [runFor_succ_last]
    exact mirror_step w s c _ (workerInv_runFor w s jobs hq n) ih

theorem C10_status_reverts_counterexample :
    finishedController.threadRunning = false ∧
      statusAt finishedController.jobs 0 = some JobStatus.Done ∧
      statusAt (startConversion finishedController).jobs 0 = some JobStatus.Queued ∧
      ¬ StatusAdvance finishedController.jobs (startConversion finishedController).jobs := by
  refine ⟨rfl, rfl, rfl, ?_⟩
  intro h
  obtain ⟨b, hb, hr, _⟩ := h 0 JobStatus.Done rfl
  have hb' : statusAt (startConversion finishedController).jobs 0 = some JobStatus.Queued := rfl
  rw [hb'] at hb
  cases hb
  exact absurd hr (by decide)

/-- C10 (amended): within one run job status never reverts. On a batch handed over all
`Queued`, every worker step leaves no job with a lower status and keeps `Done` and
`Error`; each step posts at most one event, and delivering that event through
`onProgress` to the controller that holds the same queue leaves no job of the queue
with a lower status and keeps `Done` and `Error` (the queue's statuses follow the
worker's). `addFiles` and `stopConversion` keep every existing status, `clear` empties
the queue or does nothing. `startConversion` either does nothing or sets every job
back to `Queued`. -/
theorem C10_status_monotone_within_run (w : World) (s : ConversionSettings)
    (jobs : List ConversionJob) (hq : ∀ j ∈ jobs, j.status = JobStatus.Queued)
    (c : ConverterComponent) (hcj : c.jobs = jobs) (n : Nat)
    (hasWav existsAsFile : String → Bool) (paths : List String) :
    StatusAdvance (runFor w s n (initWorker jobs)).jobs
        (runFor w s (n + 1) (initWorker jobs)).jobs ∧
      ((runFor w s (n + 1) (initWorker jobs)).events = (runFor w s n (initWorker jobs)).events ∨
        ∃ e, (runFor w s (n + 1) (initWorker jobs)).events =
            (runFor w s n (initWorker jobs)).events ++ [e] ∧
          StatusAdvance (deliver c (runFor w s n (initWorker jobs)).events).jobs
            (onProgress (deliver c (runFor w s n (initWorker jobs)).events) e).jobs) ∧
      (∀ j, statusAt (deliver c (runFor w s n (initWorker jobs)).events).jobs j =
        statusAt (runFor w s n (initWorker jobs)).jobs j) ∧
      (∀ c' : ConverterComponent,
        StatusAdvance c'.jobs (addFiles hasWav existsAsFile c' paths).jobs ∧
        (stopConversion c').jobs = c'.jobs ∧
        ((clear c').jobs = c'.jobs ∨ (clear c').jobs = []) ∧
        ((startConversion c').jobs = c'.jobs ∨
          ∀ j ∈ (startConversion c').jobs, j.status = JobStatus.Queued)) := by
  have hinv := workerInv_runFor w s jobs hq n
  have hm := mirror_runFor w s jobs hq c hcj n
  have hm' := mirror_runFor w s jobs hq c hcj (n + 1)
  have hadv := step_statusAdvance w s _ hinv
  rw [← runFor_succ_last] at hadv
  refine ⟨hadv, ?_, hm, ?_⟩
  · rcases step_events w s _ hinv with ⟨he, _⟩ | ⟨e, he, _, _⟩ | ⟨i, fp, op, status, msg, _, he, _⟩
    · rw [← runFor_succ_last] at he
      exact Or.inl he
    · rw [← runFor_succ_last] at he
      refine Or.inr ⟨e, he, ?_⟩
      intro j a ha
      rw [hm] at ha
      obtain ⟨b, hb, hr⟩ := hadv j a ha
      refine ⟨b, ?_, hr⟩
      rw [← deliver_snoc, ← he, hm', hb]
    · rw [← runFor_succ_last] at he
      refine Or.inr ⟨_, he, ?_⟩
      intro j a ha
      rw [hm] at ha
      obtain ⟨b, hb, hr⟩ := hadv j a ha
      refine ⟨b, ?_, hr⟩
      rw [← deliver_snoc, ← he, hm', hb]
  · intro c'
    refine ⟨?_, rfl, ?_, ?_⟩
    · obtain ⟨added, h1, _⟩ := foldl_addFile hasWav existsAsFile paths c'.jobs
      intro j a ha
      refine ⟨a, ?_, le_rfl, fun _ => rfl⟩
      have hlt := statusAt_lt_length ha
      have h2 : (addFiles hasWav existsAsFile c' paths).jobs = c'.jobs ++ added := h1
      rw [h2]
      simp only [statusAt] at ha ⊢
      rw [List.getElem?_append_left hlt]
      exact ha
    · unfold clear
      split_ifs
      · exact Or.inl rfl
      · exact Or.inr rfl
    · unfold startConversion
      split_ifs
      · exact Or.inl rfl
      · refine Or.inr ?_
        intro j hj
        simp only [List.mem_map] at hj
        obtain ⟨j', _, rfl⟩ := hj
        rfl

theorem C10_status_monotone_within_run_witness :
    StatusAdvance (runFor allGoodWorld ⟨0, 0, 5⟩ 1 (initWorker threeJobs)).jobs
      (runFor allGoodWorld ⟨0, 0, 5⟩ (1 + 1) (initWorker threeJobs)).jobs :=
  (C10_status_monotone_within_run allGoodWorld ⟨0, 0, 5⟩ threeJobs (by decide)
    (demoController threeJobs) rfl 1 (fun _ => true) (fun _ => true) []).1

/-! ## The error message and the `Error` status (C11) -/

theorem messageInv_iff (jobs : List ConversionJob) :
    MessageInv jobs ↔
      ∀ (j : Nat) (job : ConversionJob), jobs[j]? = some job →
        job.status ≠ JobStatus.Error → job.errorMessage = "" := by
  constructor
  · intro h j job hj
    exact h job (List.getElem?_mem hj)
  · intro h job hjob
    obtain ⟨j, hj⟩ := List.mem_iff_getElem?.mp hjob
    exact h j job hj

theorem openFile_jobs (w : World) (s : ConversionSettings) (st : WorkerState) (i : Nat) :
    ((openFile w s st i).jobs = st.jobs ∧ ∀ j, (openFile w s st i).pc ≠ Pc.fileExit j false) ∨
      ∃ msg, (openFile w s st i).jobs = setErrorMessage st.jobs i msg ∧
        (openFile w s st i).pc = Pc.fileExit i false := by
  simp only [openFile]
  split
  · exact Or.inr ⟨_, rfl, rfl⟩
  · split_ifs
    · exact Or.inr ⟨_, rfl, rfl⟩
    · exact Or.inr ⟨_, rfl, rfl⟩
    · exact Or.inl ⟨rfl, fun j h => by cases h⟩
    · exact Or.inl ⟨rfl, fun j h => by cases h⟩

theorem copyStep_jobs (w : World) (st : WorkerState) (i : Nat) (numFrames pos : Int) :
    ((copyStep w st i numFrames pos).jobs = st.jobs ∧
        ∀ j, (copyStep w st i numFrames pos).pc ≠ Pc.fileExit j false) ∨
      ∃ msg, (copyStep w st i numFrames pos).jobs = setErrorMessage st.jobs i msg ∧
        (copyStep w st i numFrames pos).pc = Pc.fileExit i false := by
  simp only [copyStep]
  split_ifs
  · exact Or.inl ⟨rfl, fun j h => by cases h⟩
  · exact Or.inr ⟨_, rfl, rfl⟩
  · exact Or.inl ⟨rfl, fun j h => by cases h⟩
  · exact Or.inl ⟨rfl, fun j h => by cases h⟩

theorem resampleStep_jobs (w : World) (st : WorkerState) (i : Nat) (total written : Int) :
    ((resampleStep w st i total written).jobs = st.jobs ∧
        ∀ j, (resampleStep w st i total written).pc ≠ Pc.fileExit j false) ∨
      ∃ msg, (resampleStep w st i total written).jobs = setErrorMessage st.jobs i msg ∧
        (resampleStep w st i total written).pc = Pc.fileExit i false := by
  simp only [resampleStep]
  split_ifs
  · exact Or.inl ⟨rfl, fun j h => by cases h⟩
  · exact Or.inr ⟨_, rfl, rfl⟩
  · exact Or.inl ⟨rfl, fun j h => by cases h⟩
  · exact Or.inl ⟨rfl, fun j h => by cases h⟩

/-- A step inside `convertFile` that is not at line 54 keeps `WorkerMessageInv`. -/
theorem workerMessageInv_inFile {st st' : WorkerState} {i : Nat}
    (h : WorkerMessageInv st) (hpc : ∀ j, st.pc ≠ Pc.fileExit j false)
    (hjobs : (st'.jobs = st.jobs ∧ ∀ j, st'.pc ≠ Pc.fileExit j false) ∨
      ∃ msg, st'.jobs = setErrorMessage st.jobs i msg ∧ st'.pc = Pc.fileExit i false) :
    WorkerMessageInv st' := by
  intro j job hj hs
  rcases hjobs with ⟨hsame, _⟩ | ⟨msg, hset, hpc'⟩
  · rw [hsame] at hj
    rcases h j job hj hs with h1 | h1
    · exact Or.inl h1
    · exact absurd h1 (hpc j)
  · rw [hset, getElem?_setErrorMessage] at hj
    by_cases hij : i = j
    · subst hij
      exact Or.inr hpc'
    · rw [if_neg hij] at hj
      rcases h j job hj hs with h1 | h1
      · exact Or.inl h1
      · exact absurd h1 (hpc j)

theorem workerMessageInv_step (w : World) (s : ConversionSettings) (st : WorkerState)
    (hinv : WorkerInv st) (h : WorkerMessageInv st) : WorkerMessageInv (step w s st) := by
  cases hpc : st.pc with
  | forHead i =>
    obtain ⟨_, _, hq⟩ := hinv.2.1 i hpc
    have hno : ∀ j, st.pc ≠ Pc.fileExit j false := fun j hj => by rw [hpc] at hj; cases hj
    by_cases hi : i < st.jobs.length
    · cases hx : w.threadShouldExit st.polls with
      | true =>
        have hst : step w s st = { st with polls := st.polls + 1, pc := Pc.halted } := by
          simp [step, hpc, hi, hx]
        rw [hst]
        intro j job hj hs
        rcases h j job hj hs with h1 | h1
        · exact Or.inl h1
        · exact absurd h1 (hno j)
      | false =>
        have hst : step w s st = { st with
            polls := st.polls + 1
            jobs := setStatus st.jobs i JobStatus.Converting
            events := st.events ++
              [⟨(i : Int), 0, (i : ℚ) / (st.jobs.length : ℚ), JobStatus.Converting, ""⟩]
            pc := Pc.fileEntry i } := by
          simp [step, hpc, hi, hx]
        rw [hst]
        intro j job hj hs
        simp only [getElem?_setStatus] at hj
        by_cases hij : i = j
        · subst hij
          rw [if_pos rfl] at hj
          cases hold : st.jobs[i]? with
          | none => rw [hold] at hj; cases hj
          | some old =>
            rw [hold] at hj
            simp only [Option.map_some', Option.some.injEq] at hj
            have hqi := hq i le_rfl hi
            simp only [statusAt, hold, Option.map_some', Option.some.injEq] at hqi
            rcases h i old hold (by rw [hqi]; decide) with h1 | h1
            · left
              rw [← hj]
              exact h1
            · exact absurd h1 (hno i)
        · rw [if_neg hij] at hj
          rcases h j job hj hs with h1 | h1
          · exact Or.inl h1
          · exact absurd h1 (hno j)
    · have hst : step w s st = { st with pc := Pc.halted } := by
        simp [step, hpc, hi]
      rw [hst]
      intro j job hj hs
      rcases h j job hj hs with h1 | h1
      · exact Or.inl h1
      · exact absurd h1 (hno j)
  | fileEntry i =>
    have hst : step w s st = openFile w s st i := by simp only [step, hpc]
    rw [hst]
    exact workerMessageInv_inFile h (fun j hj => by rw [hpc] at hj; cases hj)
      (openFile_jobs w s st i)
  | copyHead i numFrames pos =>
    have hst : step w s st = copyStep w st i numFrames pos := by simp only [step, hpc]
    rw [hst]
    exact workerMessageInv_inFile h (fun j hj => by rw [hpc] at hj; cases hj)
      (copyStep_jobs w st i numFrames pos)
  | resampleHead i total written =>
    have hst : step w s st = resampleStep w st i total written := by simp only [step, hpc]
    rw [hst]
    exact workerMessageInv_inFile h (fun j hj => by rw [hpc] at hj; cases hj)
      (resampleStep_jobs w st i total written)
  | fileReturn i =>
    have hst : step w s st = { st with
        polls := st.polls + 1
        pc := Pc.fileExit i (!w.threadShouldExit st.polls) } := by
      simp only [step, hpc]
    rw [hst]
    intro j job hj hs
    rcases h j job hj hs with h1 | h1
    · exact Or.inl h1
    · rw [hpc] at h1
      cases h1
  | fileExit i ok =>
    have hst : step w s st = finishJob st i ok := by simp only [step, hpc]
    rw [hst]
    intro j job hj hs
    left
    simp only [finishJob, getElem?_setStatus] at hj
    by_cases hij : i = j
    · subst hij
      rw [if_pos rfl] at hj
      cases hold : st.jobs[i]? with
      | none => rw [hold] at hj; cases hj
      | some old =>
        rw [hold] at hj
        simp only [Option.map_some', Option.some.injEq] at hj
        obtain ⟨_, _, hconv, _⟩ := hinv.1 i (by rw [hpc]; rfl)
        simp only [statusAt, hold, Option.map_some', Option.some.injEq] at hconv
        cases ok with
        | false =>
          rw [← hj] at hs
          exact absurd rfl hs
        | true =>
          rcases h i old hold (by rw [hconv]; decide) with h1 | h1
          · rw [← hj]
            exact h1
          · rw [hpc] at h1
            cases h1
    · rw [if_neg hij] at hj
      rcases h j job hj hs with h1 | h1
      · exact h1
      · rw [hpc] at h1
        simp only [Pc.fileExit.injEq] at h1
        exact absurd h1.1 hij
  | halted =>
    rw [step_halted w s st hpc]
    exact h

theorem workerMessageInv_runFor (w : World) (s : ConversionSettings)
    (jobs : List ConversionJob) (hq : ∀ j ∈ jobs, j.status = JobStatus.Queued)
    (hmsg : ∀ j ∈ jobs, j.errorMessage = "") (n : Nat) :
    WorkerMessageInv (runFor w s n (initWorker jobs)) := by
  induction n with
  | zero =>
    intro j job hj _
    exact Or.inl (hmsg job (List.getElem?_mem hj))
  | succ n ih =>
    rw [runFor_succ_last]
    exact workerMessageInv_step w s _ (workerInv_runFor w s jobs hq n) ih

theorem messageInv_onProgress (c : ConverterComponent) (e : ProgressEvent)
    (h : MessageInv c.jobs)
    (he : e.status = JobStatus.Error ∨ errorMessageAt c.jobs e.jobIndex.toNat = "") :
    MessageInv (onProgress c e).jobs := by
  rw [messageInv_iff] at h ⊢
  intro j job hj hs
  by_cases hidx : 0 ≤ e.jobIndex ∧ e.jobIndex < (c.jobs.length : Int)
  · by_cases hst : e.status = JobStatus.Error
    · have hjobs : (onProgress c e).jobs =
          setErrorMessage (setStatus c.jobs e.jobIndex.toNat e.status) e.jobIndex.toNat
            e.errorMessage := by
        simp [onProgress, hidx, hst]
      rw [hjobs, getElem?_setErrorMessage, getElem?_setStatus] at hj
      by_cases hij : e.jobIndex.toNat = j
      · rw [if_pos hij, if_pos hij] at hj
        cases hold : c.jobs[j]? with
        | none => rw [hold] at hj; cases hj
        | some old =>
          rw [hold] at hj
          simp only [Option.map_some', Option.some.injEq] at hj
          rw [← hj] at hs
          exact absurd hst hs
      · rw [if_neg hij, if_neg hij] at hj
        exact h j job hj hs
    · have hjobs : (onProgress c e).jobs = setStatus c.jobs e.jobIndex.toNat e.status := by
        simp [onProgress, hidx, hst]
      have hmsg : errorMessageAt c.jobs e.jobIndex.toNat = "" := by
        rcases he with he | he
        · exact absurd he hst
        · exact he
      rw [hjobs, getElem?_setStatus] at hj
      by_cases hij : e.jobIndex.toNat = j
      · rw [if_pos hij] at hj
        cases hold : c.jobs[j]? with
        | none => rw [hold] at hj; cases hj
        | some old =>
          rw [hold] at hj
          simp only [Option.map_some', Option.some.injEq] at hj
          rw [hij] at hmsg
          simp only [errorMessageAt, hold] at hmsg
          rw [← hj]
          exact hmsg
      · rw [if_neg hij] at hj
        exact h j job hj hs
  · have hjobs : (onProgress c e).jobs = c.jobs := by
      simp [onProgress, hidx]
    rw [hjobs] at hj
    exact h j job hj hs

theorem messageInv_deliver_step (w : World) (s : ConversionSettings)
    (c : ConverterComponent) (st : WorkerState) (hinv : WorkerInv st)
    (hm : ∀ j, statusAt (deliver c st.events).jobs j = statusAt st.jobs j)
    (h : MessageInv (deliver c st.events).jobs) :
    MessageInv (deliver c (step w s st).events).jobs := by
  rcases step_events w s st hinv with ⟨he, _⟩ | ⟨e, he, hi, _⟩ |
    ⟨i, fp, op, status, msg, hi, he, hs⟩
  · rw [he]
    exact h
  · rw [he, deliver_snoc, (onProgress_intra _ e hi).1]
    exact h
  · rw [he, deliver_snoc]
    apply messageInv_onProgress _ _ h
    by_cases hst : status = JobStatus.Error
    · exact Or.inl hst
    · right
      simp only [Int.toNat_ofNat]
      obtain ⟨a, ha⟩ := statusAt_of_lt hi
      obtain ⟨b, hb, _, hterm⟩ := step_statusAdvance w s st hinv i a ha
      rw [hs, statusAt_setStatus, if_pos rfl, ha] at hb
      simp only [Option.map_some', Option.some.injEq] at hb
      have hane : a ≠ JobStatus.Error := by
        intro hae
        rw [hae] at hterm
        exact hst (hb.trans (hterm rfl))
      have hd := hm i
      rw [ha] at hd
      simp only [statusAt] at hd
      cases hold : (deliver c st.events).jobs[i]? with
      | none => rw [hold] at hd; cases hd
      | some old =>
        rw [hold] at hd
        simp only [Option.map_some', Option.some.injEq] at hd
        simp only [errorMessageAt, hold]
        exact h old (List.getElem?_mem hold) (by rw [hd]; exact hane)

theorem messageInv_deliver_runFor (w : World) (s : ConversionSettings)
    (jobs : List ConversionJob) (hq : ∀ j ∈ jobs, j.status = JobStatus.Queued)
    (hmsg : ∀ j ∈ jobs, j.errorMessage = "") (c : ConverterComponent) (hcj : c.jobs = jobs)
    (n : Nat) : MessageInv (deliver c (runFor w s n (initWorker jobs)).events).jobs := by
  induction n with
  | zero =>
    intro job hjob _
    simp only [runFor_zero, initWorker, deliver, List.foldl_nil, hcj] at hjob
    exact hmsg job hjob
  | succ n ih =>
    rw [runFor_succ_last]
    exact messageInv_deliver_step w s c _ (workerInv_runFor w s jobs hq n)
      (mirror_runFor w s jobs hq c hcj n) ih

theorem C11_stale_message_counterexample :
    failedController.threadRunning = false ∧ MessageInv failedController.jobs ∧
      (startConversion failedController).jobs =
        [⟨"a.wav", "Cannot read: a.wav", JobStatus.Queued⟩] ∧
      ¬ MessageInv (startConversion failedController).jobs := by
  refine ⟨rfl, ?_, rfl, ?_⟩
  · intro job hjob hs
    simp only [failedController, demoController, List.mem_singleton] at hjob
    rw [hjob] at hs
    exact absurd rfl hs
  · intro h
    have h1 := h ⟨"a.wav", "Cannot read: a.wav", JobStatus.Queued⟩
      (by simp [startConversion, failedController, demoController]) (by decide)
    exact absurd h1 (by decide)

/-- C11 (amended): the predicate "a job that is not in `Error` has an empty error
message" holds of the empty queue and is kept by `addFiles`, `clear` and
`stopConversion`; `onProgress` keeps it whenever the event carries status `Error` or the
job it addresses has an empty message, and in particular along the delivery, in
emission order, of the events of a run on a batch handed over all `Queued` with empty
messages. On the worker's list of such a run the predicate holds whenever control is
not at line 54 after a failed `convertFile`: the message is written inside
`convertFile` while the job is still `Converting`, and the status becomes `Error` one
step later. `startConversion` keeps every job's error message (while resetting its
status). -/
theorem C11_error_message_within_run (w : World) (s : ConversionSettings)
    (jobs : List ConversionJob) (hq : ∀ j ∈ jobs, j.status = JobStatus.Queued)
    (hmsg : ∀ j ∈ jobs, j.errorMessage = "") (c : ConverterComponent) (hcj : c.jobs = jobs)
    (n : Nat) (hasWav existsAsFile : String → Bool) (paths : List String) :
    MessageInv ([] : List ConversionJob) ∧
      (∀ c' : ConverterComponent, MessageInv c'.jobs →
        MessageInv (addFiles hasWav existsAsFile c' paths).jobs ∧
        MessageInv (clear c').jobs ∧ MessageInv (stopConversion c').jobs) ∧
      (∀ (c' : ConverterComponent) (e : ProgressEvent), MessageInv c'.jobs →
        e.status = JobStatus.Error ∨ errorMessageAt c'.jobs e.jobIndex.toNat = "" →
        MessageInv (onProgress c' e).jobs) ∧
      MessageInv (deliver c (runFor w s n (initWorker jobs)).events).jobs ∧
      WorkerMessageInv (runFor w s n (initWorker jobs)) ∧
      ((∀ j, (runFor w s n (initWorker jobs)).pc ≠ Pc.fileExit j false) →
        MessageInv (runFor w s n (initWorker jobs)).jobs) ∧
      (∀ c' : ConverterComponent,
        (startConversion c').jobs.map (fun j => j.errorMessage) =
          c'.jobs.map (fun j => j.errorMessage)) := by
  have hw := workerMessageInv_runFor w s jobs hq hmsg n
  refine ⟨fun job hjob => (by cases hjob), ?_, ?_,
    messageInv_deliver_runFor w s jobs hq hmsg c hcj n, hw, ?_, ?_⟩
  · intro c' h
    refine ⟨?_, ?_, h⟩
    · obtain ⟨added, h1, h2, _⟩ := foldl_addFile hasWav existsAsFile paths c'.jobs
      have hjobs : (addFiles hasWav existsAsFile c' paths).jobs = c'.jobs ++ added := h1
      rw [hjobs]
      intro job hjob hs
      rcases List.mem_append.mp hjob with hj | hj
      · exact h job hj hs
      · exact (h2 job hj).2
    · unfold clear
      split_ifs
      · exact h
      · intro job hjob
        cases hjob
  · intro c' e h he
    exact messageInv_onProgress c' e h he
  · intro hpc
    rw [messageInv_iff]
    intro j job hj hs
    rcases hw j job hj hs with h1 | h1
    · exact h1
    · exact absurd h1 (hpc j)
  · intro c'
    unfold startConversion
    split_ifs
    · rfl
    · simp [Function.comp_def]

theorem C11_error_message_within_run_witness :
    MessageInv (deliver (demoController threeJobs)
        (runFor (oneBadWorld "b.wav") ⟨0, 0, 5⟩ 9 (initWorker threeJobs)).events).jobs ∧
      WorkerMessageInv (runFor (oneBadWorld "b.wav") ⟨0, 0, 5⟩ 9 (initWorker threeJobs)) :=
  have h := C11_error_message_within_run (oneBadWorld "b.wav") ⟨0, 0, 5⟩ threeJobs
    (by decide) (by decide) (demoController threeJobs) rfl 9 (fun _ => true) (fun _ => true) []
  ⟨h.2.2.2.1, h.2.2.2.2.1⟩

/-! ## Sequential processing (C12) -/

theorem converting_iff_of_inFile {jobs : List ConversionJob} {i : Nat} (h : InFile jobs i)
    (j : Nat) : statusAt jobs j = some JobStatus.Converting ↔ j = i := by
  obtain ⟨_, hb, hc, hq⟩ := h
  constructor
  · intro hj
    rcases Nat.lt_trichotomy j i with hlt | heq | hgt
    · obtain ⟨a, ha, ht⟩ := hb j hlt
      rw [ha] at hj
      cases hj
      exact absurd ht (by decide)
    · exact heq
    · have := hq j hgt (statusAt_lt_length hj)
      rw [this] at hj
      cases hj
  · intro hj
    rw [hj]
    exact hc

theorem no_converting_of_atHead {jobs : List ConversionJob} {i : Nat} (h : AtHead jobs i)
    (j : Nat) : statusAt jobs j ≠ some JobStatus.Converting := by
  obtain ⟨_, hb, hq⟩ := h
  intro hj
  rcases Nat.lt_or_ge j i with hlt | hge
  · obtain ⟨a, ha, ht⟩ := hb j hlt
    rw [ha] at hj
    cases hj
    exact absurd ht (by decide)
  · have := hq j hge (statusAt_lt_length hj)
    rw [this] at hj
    cases hj

theorem length_step (w : World) (s : ConversionSettings) (st : WorkerState) :
    (step w s st).jobs.length = st.jobs.length := by
  cases hpc : st.pc with
  | forHead i =>
    simp only [step, hpc]
    split_ifs <;> simp [length_setStatus]
  | fileEntry i =>
    simp only [step, hpc]
    exact (openFile_shape w s st i).2.1
  | copyHead i a b =>
    simp only [step, hpc]
    exact (copyStep_shape w st i a b).2.1
  | resampleHead i a b =>
    simp only [step, hpc]
    exact (resampleStep_shape w st i a b).2.1
  | fileReturn i => simp only [step, hpc]
  | fileExit i ok => simp [step, hpc, finishJob, length_setStatus]
  | halted => rw [step_halted w s st hpc]

theorem length_runFor (w : World) (s : ConversionSettings) (n : Nat) (st : WorkerState) :
    (runFor w s n st).jobs.length = st.jobs.length := by
  induction n with
  | zero => rfl
  | succ n ih => rw [runFor_succ_last, length_step, ih]

theorem C12_no_converting_job_counterexample :
    (∀ j ∈ twoJobs, j.status = JobStatus.Queued) ∧
      (runFor allGoodWorld ⟨0, 0, 5⟩ 0 (initWorker twoJobs)).pc = Pc.forHead 0 ∧
      ¬ ∃ j, statusAt (runFor allGoodWorld ⟨0, 0, 5⟩ 0 (initWorker twoJobs)).jobs j =
        some JobStatus.Converting := by
  refine ⟨by decide, rfl, ?_⟩
  rintro ⟨j, hj⟩
  exact no_converting_of_atHead
    ((workerInv_init twoJobs (by decide)).2.1 0 rfl) j hj

/-- C12 (amended): on a batch handed over all `Queued`, at every reachable state of the
worker at most one job is `Converting`. While control is inside `convertFile` for job
`i` (lines 46-54), job `i` is the one job that is `Converting`, every job before it
is `Done` or `Error` and every job after it is `Queued`. While control is at the loop
head between two jobs, or the run has returned, no job is `Converting`: the jobs
before some index are `Done` or `Error` and the jobs from it on are `Queued`. -/
theorem C12_sequential_processing (w : World) (s : ConversionSettings)
    (jobs : List ConversionJob) (hq : ∀ j ∈ jobs, j.status = JobStatus.Queued) (n : Nat) :
    (∀ i, currentJob (runFor w s n (initWorker jobs)).pc = some i →
        InFile (runFor w s n (initWorker jobs)).jobs i ∧
        ∀ j, statusAt (runFor w s n (initWorker jobs)).jobs j = some JobStatus.Converting ↔
          j = i) ∧
      (currentJob (runFor w s n (initWorker jobs)).pc = none →
        (∃ i, AtHead (runFor w s n (initWorker jobs)).jobs i) ∧
        ∀ j, statusAt (runFor w s n (initWorker jobs)).jobs j ≠ some JobStatus.Converting) ∧
      (∀ j j', statusAt (runFor w s n (initWorker jobs)).jobs j = some JobStatus.Converting →
        statusAt (runFor w s n (initWorker jobs)).jobs j' = some JobStatus.Converting →
        j = j') ∧
      (runFor w s n (initWorker jobs)).jobs.length = jobs.length := by
  have hinv := workerInv_runFor w s jobs hq n
  have hhead : currentJob (runFor w s n (initWorker jobs)).pc = none →
      ∃ i, AtHead (runFor w s n (initWorker jobs)).jobs i := by
    intro hcur
    cases hpc : (runFor w s n (initWorker jobs)).pc with
    | forHead i => exact ⟨i, hinv.2.1 i hpc⟩
    | halted => exact hinv.2.2 hpc
    | fileEntry i => rw [hpc] at hcur; cases hcur
    | copyHead i a b => rw [hpc] at hcur; cases hcur
    | resampleHead i a b => rw [hpc] at hcur; cases hcur
    | fileReturn i => rw [hpc] at hcur; cases hcur
    | fileExit i ok => rw [hpc] at hcur; cases hcur
  refine ⟨fun i hi => ⟨hinv.1 i hi, converting_iff_of_inFile (hinv.1 i hi)⟩, ?_, ?_, ?_⟩
  · intro hcur
    obtain ⟨i, hat⟩ := hhead hcur
    exact ⟨⟨i, hat⟩, no_converting_of_atHead hat⟩
  · intro j j' hj hj'
    cases hcur : currentJob (runFor w s n (initWorker jobs)).pc with
    | none =>
      obtain ⟨i, hat⟩ := hhead hcur
      exact absurd hj (no_converting_of_atHead hat j)
    | some i =>
      rw [(converting_iff_of_inFile (hinv.1 i hcur) j).mp hj,
        (converting_iff_of_inFile (hinv.1 i hcur) j').mp hj']
  · exact length_runFor w s n (initWorker jobs)

theorem C12_sequential_processing_witness :
    InFile (runFor (cancelWorld 2) ⟨0, 0, 5⟩ 3 (initWorker twoJobs)).jobs 0 ∧
      (statusAt (runFor (cancelWorld 2) ⟨0, 0, 5⟩ 3 (initWorker twoJobs)).jobs 1 =
        some JobStatus.Converting ↔ 1 = 0) :=
  have h := (C12_sequential_processing (cancelWorld 2) ⟨0, 0, 5⟩ twoJobs (by decide) 3).1 0
    (by decide!)
  ⟨h.1, h.2 1⟩

/-! ## The block loops in closed form -/

theorem blockStart_last {total : Int} (h0 : 0 ≤ total) {k : Nat} (hk : numBlocks total ≤ k) :
    blockStart total k = total := by
  simp only [blockStart, numBlocks, blockSize] at hk ⊢
  omega

theorem blockStart_lt {total : Int} {k : Nat} (hk : k < numBlocks total) :
    blockStart total k = blockSize * (k : Int) ∧ blockSize * (k : Int) < total := by
  simp only [blockStart, numBlocks, blockSize] at hk ⊢
  omega

theorem blockStart_succ (total : Int) (k : Nat) :
    blockStart total (k + 1) = blockSize * (k : Int) + blockLen total k := by
  simp only [blockStart, blockLen, blockSize]
  push_cast
  omega

theorem blockLen_bounds {total : Int} {k : Nat} (hk : k < numBlocks total) :
    1 ≤ blockLen total k ∧ blockLen total k ≤ 8192 := by
  simp only [blockLen, numBlocks, blockSize] at hk ⊢
  omega

theorem copy_loop_exact (w : World) (s : ConversionSettings)
    (hc : ∀ t, w.threadShouldExit t = false) (file : String)
    (hw : ∀ p, w.writeOk file p = true) (total : Int) :
    ∀ (m k : Nat) (st : WorkerState) (i : Nat), k + m ≤ numBlocks total →
      st.pc = Pc.copyHead i total (blockStart total k) → inputFileAt st.jobs i = file →
      runFor w s m st =
        { st with
          polls := st.polls + m
          effects := st.effects ++ (List.range' k m).flatMap (copyEffects total)
          events := st.events ++ (List.range' k m).flatMap (blockEvents total)
          pc := Pc.copyHead i total (blockStart total (k + m)) } := by
  intro m
  induction m with
  | zero =>
    intro k st i _ hpc _
    cases st
    simp only at hpc
    simp [runFor_zero, hpc]
  | succ m ih =>
    intro k st i hk hpc hfile
    obtain ⟨hs, hlt⟩ := blockStart_lt (show k < numBlocks total by omega)
    rw [hs] at hpc
    have h1 : step w s st = { st with
        polls := st.polls + 1
        effects := st.effects ++ copyEffects total k
        events := st.events ++ blockEvents total k
        pc := Pc.copyHead i total (blockStart total (k + 1)) } := by
      rw [blockStart_succ total k]
      simp [step, hpc, copyStep, hlt, hc, hfile, hw, copyEffects, blockEvents, blockLen]
    have h2 := ih (k + 1) (step w s st) i (by omega) (by rw [h1]) (by rw [h1]; exact hfile)
    rw [runFor_succ, h2, h1]
    simp [List.range'_succ, Nat.add_assoc, Nat.add_comm 1 m, Nat.add_left_comm]

theorem resample_loop_exact (w : World) (s : ConversionSettings)
    (hc : ∀ t, w.threadShouldExit t = false) (file : String)
    (hw : ∀ p, w.writeOk file p = true) (total : Int) :
    ∀ (m k : Nat) (st : WorkerState) (i : Nat), k + m ≤ numBlocks total →
      st.pc = Pc.resampleHead i total (blockStart total k) → inputFileAt st.jobs i = file →
      runFor w s m st =
        { st with
          polls := st.polls + m
          effects := st.effects ++ (List.range' k m).flatMap (resampleEffects total)
          events := st.events ++ (List.range' k m).flatMap (blockEvents total)
          pc := Pc.resampleHead i total (blockStart total (k + m)) } := by
  intro m
  induction m with
  | zero =>
    intro k st i _ hpc _
    cases st
    simp only at hpc
    simp [runFor_zero, hpc]
  | succ m ih =>
    intro k st i hk hpc hfile
    obtain ⟨hs, hlt⟩ := blockStart_lt (show k < numBlocks total by omega)
    rw [hs] at hpc
    have h1 : step w s st = { st with
        polls := st.polls + 1
        effects := st.effects ++ resampleEffects total k
        events := st.events ++ blockEvents total k
        pc := Pc.resampleHead i total (blockStart total (k + 1)) } := by
      rw [blockStart_succ total k]
      simp [step, hpc, resampleStep, hlt, hc, hfile, hw, resampleEffects, blockEvents,
        blockLen]
    have h2 := ih (k + 1) (step w s st) i (by omega) (by rw [h1]) (by rw [h1]; exact hfile)
    rw [runFor_succ, h2, h1]
    simp [List.range'_succ, Nat.add_assoc, Nat.add_comm 1 m, Nat.add_left_comm]

theorem blockStart_zero {total : Int} (h0 : 0 ≤ total) : blockStart total 0 = 0 := by
  simp only [blockStart, blockSize]
  omega


theorem sum_blockLen {total : Int} (h0 : 0 ≤ total) :
    ∀ m : Nat, m ≤ numBlocks total →
      ((List.range m).map (blockLen total)).sum = blockStart total m := by
  intro m
  induction m with
  | zero =>
    intro _
    simp only [List.range_zero, List.map_nil, List.sum_nil, blockStart, blockSize]
    omega
  | succ m ih =>
    intro hm
    rw [List.range_succ, List.map_append, List.sum_append, ih (by omega),
      blockStart_succ total m, (blockStart_lt (show m < numBlocks total by omega)).1]
    simp

theorem numBlocks_eq_ceil {total : Int} (h0 : 0 ≤ total) :
    (numBlocks total : Int) = ⌈(total : ℚ) / 8192⌉ := by
  have hq : (numBlocks total : Int) = (total + 8191) / 8192 := by
    simp only [numBlocks]
    omega
  symm
  rw [Int.ceil_eq_iff, hq]
  have h1 : 8192 * ((total + 8191) / 8192) ≤ total + 8191 := by omega
  have h2 : total + 8191 < 8192 * ((total + 8191) / 8192) + 8192 := by omega
  have h1' : (8192 : ℚ) * (((total + 8191) / 8192 : Int) : ℚ) ≤ (total : ℚ) + 8191 := by
    exact_mod_cast h1
  have h2' : (total : ℚ) + 8191 < 8192 * (((total + 8191) / 8192 : Int) : ℚ) + 8192 := by
    exact_mod_cast h2
  constructor
  · rw [lt_div_iff₀ (by norm_num)]
    linarith
  · rw [div_le_iff₀ (by norm_num)]
    have h3 : total ≤ 8192 * ((total + 8191) / 8192) := by omega
    have h3' : (total : ℚ) ≤ 8192 * (((total + 8191) / 8192 : Int) : ℚ) := by
      exact_mod_cast h3
    linarith

/-! ## Resampled length (C13) -/

/-- C13: for a source of `N ≥ 0` frames and positive source and output rates that
differ, when no write fails and the flag is never raised, `convertFile` computes
`T = floor (N * outRate / srcRate + 1/2)` output frames, runs the resampling loop for
`numBlocks T` iterations, each pulling and writing a block of between 1 and 8192
frames, `T` frames in total, calls `releaseResources` after the loop and returns true.
In any world, a write failure in the loop stores the message, calls
`releaseResources` and makes `convertFile` return false. -/
theorem C13_resampled_length (w : World) (s : ConversionSettings)
    (hc : ∀ t, w.threadShouldExit t = false) (st : WorkerState) (i : Nat)
    (reader : AudioFormatReader) (hpc : st.pc = Pc.fileEntry i)
    (hr : w.createReaderFor (inputFileAt st.jobs i) = some reader)
    (ho : w.failedToOpen (w.withFlacExtension (inputFileAt st.jobs i)) = false)
    (hwr : w.createWriterFor (w.withFlacExtension (inputFileAt st.jobs i))
      (outRate s reader.sampleRate) reader.numChannels (outBits s reader.bitsPerSample)
      s.flacQuality = true)
    (hrate : outRate s reader.sampleRate ≠ reader.sampleRate)
    (hN : 0 ≤ reader.lengthInSamples) (hsrc : 0 < reader.sampleRate)
    (hout : 0 < outRate s reader.sampleRate)
    (hw : ∀ p, w.writeOk (inputFileAt st.jobs i) p = true) :
    outFrames reader.lengthInSamples reader.sampleRate (outRate s reader.sampleRate) =
        ⌊(reader.lengthInSamples : ℚ) * outRate s reader.sampleRate / reader.sampleRate
          + 1 / 2⌋ ∧
      runFor w s (numBlocks (outFrames reader.lengthInSamples reader.sampleRate
          (outRate s reader.sampleRate)) + 3) st =
        { st with
          polls := st.polls + numBlocks (outFrames reader.lengthInSamples reader.sampleRate
            (outRate s reader.sampleRate)) + 1
          effects := st.effects ++
            [Effect.createWriter (w.withFlacExtension (inputFileAt st.jobs i))
              (outRate s reader.sampleRate) reader.numChannels
              (outBits s reader.bitsPerSample) s.flacQuality,
             Effect.read 0 (toInt32 reader.lengthInSamples),
             Effect.setResamplingRatio (reader.sampleRate / outRate s reader.sampleRate),
             Effect.prepareToPlay blockSize (outRate s reader.sampleRate)] ++
            (List.range (numBlocks (outFrames reader.lengthInSamples reader.sampleRate
              (outRate s reader.sampleRate)))).flatMap
              (resampleEffects (outFrames reader.lengthInSamples reader.sampleRate
                (outRate s reader.sampleRate))) ++
            [Effect.releaseResources]
          events := st.events ++
            (List.range (numBlocks (outFrames reader.lengthInSamples reader.sampleRate
              (outRate s reader.sampleRate)))).flatMap
              (blockEvents (outFrames reader.lengthInSamples reader.sampleRate
                (outRate s reader.sampleRate)))
          pc := Pc.fileExit i true } ∧
      (∀ k : Nat, k < numBlocks (outFrames reader.lengthInSamples reader.sampleRate
          (outRate s reader.sampleRate)) →
        1 ≤ blockLen (outFrames reader.lengthInSamples reader.sampleRate
          (outRate s reader.sampleRate)) k ∧
        blockLen (outFrames reader.lengthInSamples reader.sampleRate
          (outRate s reader.sampleRate)) k ≤ 8192) ∧
      ((List.range (numBlocks (outFrames reader.lengthInSamples reader.sampleRate
          (outRate s reader.sampleRate)))).map
        (blockLen (outFrames reader.lengthInSamples reader.sampleRate
          (outRate s reader.sampleRate)))).sum =
        outFrames reader.lengthInSamples reader.sampleRate (outRate s reader.sampleRate) ∧
      (∀ (w' : World) (st' : WorkerState) (j : Nat) (total written : Int),
        st'.pc = Pc.resampleHead j total written → written < total →
        w'.threadShouldExit st'.polls = false →
        w'.writeOk (inputFileAt st'.jobs j) written = false →
        step w' s st' =
          { st' with
            polls := st'.polls + 1
            jobs := setErrorMessage st'.jobs j "Write error during resample"
            effects := st'.effects ++
              [Effect.getNextAudioBlock (min blockSize (total - written)),
               Effect.write (min blockSize (total - written)), Effect.releaseResources]
            pc := Pc.fileExit j false }) := by
  have hT := outFrames_nonneg hN hsrc hout
  have hres : needsResample s reader.sampleRate = true := by
    simp [needsResample, hrate]
  have h1 : step w s st = { st with
      effects := (st.effects ++
        [Effect.createWriter (w.withFlacExtension (inputFileAt st.jobs i))
          (outRate s reader.sampleRate) reader.numChannels
          (outBits s reader.bitsPerSample) s.flacQuality]) ++
        [Effect.read 0 (toInt32 reader.lengthInSamples),
         Effect.setResamplingRatio (reader.sampleRate / outRate s reader.sampleRate),
         Effect.prepareToPlay blockSize (outRate s reader.sampleRate)]
      pc := Pc.resampleHead i (outFrames reader.lengthInSamples reader.sampleRate
        (outRate s reader.sampleRate)) 0 } := by
    have hst : step w s st = openFile w s st i := by simp only [step, hpc]
    rw [hst, openFile_of_writer w s st i reader hr ho hwr, hres]
    simp
  have hloop := resample_loop_exact w s hc (inputFileAt st.jobs i) hw
    (outFrames reader.lengthInSamples reader.sampleRate (outRate s reader.sampleRate))
    (numBlocks (outFrames reader.lengthInSamples reader.sampleRate
      (outRate s reader.sampleRate))) 0 (step w s st) i (by omega)
    (by rw [h1, blockStart_zero hT]) (by rw [h1])
  refine ⟨outFrames_eq_floor hN hsrc hout, ?_, fun k hk => blockLen_bounds hk, ?_, ?_⟩
  · rw [show numBlocks (outFrames reader.lengthInSamples reader.sampleRate
        (outRate s reader.sampleRate)) + 3 =
      (numBlocks (outFrames reader.lengthInSamples reader.sampleRate
        (outRate s reader.sampleRate)) + 2) + 1 from rfl, runFor_succ, runFor_add, hloop, h1]
    simp only [Nat.zero_add]
    rw [blockStart_last hT le_rfl, runFor_succ, runFor_succ, runFor_zero]
    simp [step, resampleStep, hc, List.range_eq_range', Nat.add_assoc]
  · rw [sum_blockLen hT _ le_rfl, blockStart_last hT le_rfl]
  · intro w' st' j total written hpc' hlt hx hwf
    simp [step, hpc', resampleStep, hlt, hx, hwf]

theorem C13_resampled_length_witness :
    outFrames 20000 44100 48000 = ⌊(20000 : ℚ) * 48000 / 44100 + 1 / 2⌋ ∧
      ((List.range (numBlocks (outFrames 20000 44100 48000))).map
        (blockLen (outFrames 20000 44100 48000))).sum = outFrames 20000 44100 48000 :=
  have h := C13_resampled_length allGoodWorld ⟨48000, 0, 5⟩ (fun _ => rfl) demoEntry 0
    (demoReader 20000) rfl rfl rfl rfl (by decide!) (by decide) (by decide!) (by decide!)
    (fun _ => rfl)
  ⟨h.1, h.2.2.2.1⟩

/-! ## Intra-file progress throttling (C14) -/

/-- C15: when the effective output rate equals the source rate, no write fails and the
flag is never raised, `convertFile` on a source of `N ≥ 0` frames runs the copy loop for
exactly `numBlocks N = ceil (N / 8192)` iterations: before iteration `k` the position is
`8192 k < N`, after the last one it is `N`; iteration `k` reads and writes the frame
range `[8192 k, min (8192 (k + 1), N))`, whose length is between 1 and 8192; the
lengths add up to `N`; and `convertFile` returns true. -/
theorem C15_direct_copy_covers_source (w : World) (s : ConversionSettings)
    (hc : ∀ t, w.threadShouldExit t = false) (st : WorkerState) (i : Nat)
    (reader : AudioFormatReader) (hpc : st.pc = Pc.fileEntry i)
    (hr : w.createReaderFor (inputFileAt st.jobs i) = some reader)
    (ho : w.failedToOpen (w.withFlacExtension (inputFileAt st.jobs i)) = false)
    (hwr : w.createWriterFor (w.withFlacExtension (inputFileAt st.jobs i))
      (outRate s reader.sampleRate) reader.numChannels (outBits s reader.bitsPerSample)
      s.flacQuality = true)
    (hrate : outRate s reader.sampleRate = reader.sampleRate)
    (hN : 0 ≤ reader.lengthInSamples)
    (hw : ∀ p, w.writeOk (inputFileAt st.jobs i) p = true) :
    (numBlocks reader.lengthInSamples : Int) = ⌈(reader.lengthInSamples : ℚ) / 8192⌉ ∧
      (∀ k : Nat, k < numBlocks reader.lengthInSamples →
        (runFor w s (k + 1) st).pc =
          Pc.copyHead i reader.lengthInSamples (blockSize * (k : Int)) ∧
        blockSize * (k : Int) < reader.lengthInSamples) ∧
      (runFor w s (numBlocks reader.lengthInSamples + 1) st).pc =
        Pc.copyHead i reader.lengthInSamples reader.lengthInSamples ∧
      runFor w s (numBlocks reader.lengthInSamples + 3) st =
        { st with
          polls := st.polls + numBlocks reader.lengthInSamples + 1
          effects := st.effects ++
            [Effect.createWriter (w.withFlacExtension (inputFileAt st.jobs i))
              (outRate s reader.sampleRate) reader.numChannels
              (outBits s reader.bitsPerSample) s.flacQuality] ++
            (List.range (numBlocks reader.lengthInSamples)).flatMap
              (copyEffects reader.lengthInSamples)
          events := st.events ++ (List.range (numBlocks reader.lengthInSamples)).flatMap
            (blockEvents reader.lengthInSamples)
          pc := Pc.fileExit i true } ∧
      (∀ k : Nat, k < numBlocks reader.lengthInSamples →
        1 ≤ blockLen reader.lengthInSamples k ∧ blockLen reader.lengthInSamples k ≤ 8192 ∧
        blockSize * (k : Int) + blockLen reader.lengthInSamples k =
          min (blockSize * ((k : Int) + 1)) reader.lengthInSamples ∧
        (k + 1 < numBlocks reader.lengthInSamples →
          blockSize * (k : Int) + blockLen reader.lengthInSamples k =
            blockSize * ((k : Int) + 1))) ∧
      ((List.range (numBlocks reader.lengthInSamples)).map
        (blockLen reader.lengthInSamples)).sum = reader.lengthInSamples := by
  have hres : needsResample s reader.sampleRate = false := by
    simp [needsResample, hrate]
  have h1 : step w s st = { st with
      effects := st.effects ++
        [Effect.createWriter (w.withFlacExtension (inputFileAt st.jobs i))
          (outRate s reader.sampleRate) reader.numChannels
          (outBits s reader.bitsPerSample) s.flacQuality]
      pc := Pc.copyHead i reader.lengthInSamples 0 } := by
    have hst : step w s st = openFile w s st i := by simp only [step, hpc]
    rw [hst, openFile_of_writer w s st i reader hr ho hwr, hres]
    simp
  have hloop := fun (m : Nat) (hm : 0 + m ≤ numBlocks reader.lengthInSamples) =>
    copy_loop_exact w s hc (inputFileAt st.jobs i) hw reader.lengthInSamples m 0
      (step w s st) i hm (by rw [h1, blockStart_zero hN]) (by rw [h1])
  refine ⟨numBlocks_eq_ceil hN, ?_, ?_, ?_, ?_, ?_⟩
  · intro k hk
    obtain ⟨hs, hlt⟩ := blockStart_lt hk
    rw [runFor_succ, hloop k (by omega)]
    simp only [Nat.zero_add]
    exact ⟨by rw [hs], hlt⟩
  · rw [runFor_succ, hloop _ (by omega)]
    simp only [Nat.zero_add]
    rw [blockStart_last hN le_rfl]
  · rw [show numBlocks reader.lengthInSamples + 3 =
      (numBlocks reader.lengthInSamples + 2) + 1 from rfl, runFor_succ, runFor_add,
      hloop _ (by omega), h1]
    simp only [Nat.zero_add]
    rw [blockStart_last hN le_rfl, runFor_succ, runFor_succ, runFor_zero]
    simp [step, copyStep, hc, List.range_eq_range', Nat.add_assoc]
  · intro k hk
    obtain ⟨hs, _⟩ := blockStart_lt hk
    refine ⟨(blockLen_bounds hk).1, (blockLen_bounds hk).2, ?_, ?_⟩
    · rw [← blockStart_succ reader.lengthInSamples k]
      simp only [blockStart]
      push_cast
      rfl
    · intro hk'
      rw [← blockStart_succ reader.lengthInSamples k, (blockStart_lt hk').1]
      push_cast
      rfl
  · rw [sum_blockLen hN _ le_rfl, blockStart_last hN le_rfl]

theorem C15_direct_copy_covers_source_witness :
    (runFor allGoodWorld ⟨0, 0, 5⟩ (numBlocks 20000 + 3) demoEntry).pc = Pc.fileExit 0 true ∧
      ((List.range (numBlocks 20000)).map (blockLen 20000)).sum = 20000 :=
  have h := C15_direct_copy_covers_source allGoodWorld ⟨0, 0, 5⟩ (fun _ => rfl) demoEntry 0
    (demoReader 20000) rfl rfl rfl rfl rfl (by decide) (fun _ => rfl)
  ⟨congrArg WorkerState.pc h.2.2.2.1, h.2.2.2.2.2⟩

end Wav2Flac
